import Mathlib

set_option maxHeartbeats 1000000

/-!
Shallow embedding of the tactical-combat core of the repository
(src/rust/src/math.rs, src/rust/src/ability.rs, src/rust/src/traits.rs,
src/rust/src/level.rs), together with theorems checking the specification's
claims about it.  Rust `u16`/`usize` arithmetic is modelled with `Nat`
(all quantities involved stay far below the overflow bounds); fallible code
(`unwrap`, `unreachable!()`) is modelled with `Option`.
-/

namespace Game

/-- level.rs: `pub const LEVEL_WIDTH: usize = 16`. -/
def LEVEL_WIDTH : Nat := 16

/-- level.rs: `pub const LEVEL_HEIGHT: usize = 32`. -/
def LEVEL_HEIGHT : Nat := 32

/-- math.rs `Direction`. -/
inductive Direction where
  | left
  | right
  | up
  | down
  deriving DecidableEq, Repr

/-- The `strum` `EnumIter` order of `Direction` (declaration order). -/
def Direction.all : List Direction := [.left, .right, .up, .down]

/-- math.rs `Position`. -/
structure Position where
  x : Nat
  y : Nat
  deriving DecidableEq, Repr

/-- math.rs `Position::adjacent`: the in-bounds 4-neighbours, pushed in the
order left, right, up, down. -/
def Position.adjacent (p : Position) : List Position :=
  (if 0 < p.x then [Position.mk (p.x - 1) p.y] else []) ++
    (if p.x < LEVEL_WIDTH - 1 then [Position.mk (p.x + 1) p.y] else []) ++
    (if 0 < p.y then [Position.mk p.x (p.y - 1)] else []) ++
    (if p.y < LEVEL_HEIGHT - 1 then [Position.mk p.x (p.y + 1)] else [])

/-- Newton iteration for the integer square root, with explicit fuel.  The
iterate strictly decreases until it stabilizes at the floor square root, so
`n` steps are far more than enough.  (Written this way rather than with
`Nat.sqrt` so that it evaluates inside the kernel.) -/
def isqrtGo (n : Nat) : Nat → Nat → Nat
  | 0, x => x
  | fuel + 1, x =>
    let next := (x + n / x) / 2
    if next < x then isqrtGo n fuel next else x

/-- The integer (floor) square root, as computed by `num_integer`'s `sqrt`. -/
def isqrt (n : Nat) : Nat := if n = 0 then 0 else isqrtGo n n n

/-- math.rs `Position::distance`: integer square root of the squared Euclidean
distance.  The source computes `dx`, `dy` in `i16`; on a 16 x 32 grid the
intermediate values are tiny, so `Int` arithmetic is exact. -/
def Position.distance (p q : Position) : Nat :=
  isqrt (((p.x : Int) - (q.x : Int)) * ((p.x : Int) - (q.x : Int)) +
    ((p.y : Int) - (q.y : Int)) * ((p.y : Int) - (q.y : Int))).toNat

/-- math.rs `Position::direction_to`.  The source is `unreachable!()` when the
two positions coincide; that panic is modelled as `none`. -/
def Position.direction_to (p other : Position) : Option Direction :=
  if other.x < p.x then some Direction.left
  else if p.x < other.x then some Direction.right
  else if other.y < p.y then some Direction.up
  else if p.y < other.y then some Direction.down
  else none

/-- math.rs `Position::in_direction`. -/
def Position.in_direction (p : Position) (direction : Direction) (dist : Nat) :
    Option Position :=
  match direction with
  | Direction.left => if p.x < dist then none else some ⟨p.x - dist, p.y⟩
  | Direction.right =>
    if LEVEL_WIDTH ≤ p.x + dist then none else some ⟨p.x + dist, p.y⟩
  | Direction.up => if p.y < dist then none else some ⟨p.x, p.y - dist⟩
  | Direction.down =>
    if LEVEL_HEIGHT ≤ p.y + dist then none else some ⟨p.x, p.y + dist⟩

/-- level.rs `AllyId`. -/
inductive AllyId where
  | ashMagnum
  | alukrod
  deriving DecidableEq, Repr

/-- level.rs `pub type EnemyId = u16`. -/
abbrev EnemyId := Nat

/-- level.rs `pub type ObstacleId = u16`. -/
abbrev ObstacleId := Nat

/-- level.rs `pub type ItemId = u16`. -/
abbrev ItemId := Nat

/-- level.rs `Tile`. -/
inductive Tile where
  | empty
  | ally (id : AllyId)
  | enemy (id : EnemyId)
  | obstacle (id : ObstacleId)
  | item (id : ItemId)
  deriving DecidableEq, Repr

/-- Modelled from the spec: `Tile::is_empty` is called by the pathfinder, the
line caster and the attack-position enumeration in math.rs, but the `impl Tile`
block defining it is not among the provided sources.  Spec section 4.2 says a
cell is traversable when it is "either Empty or tagged as the mover itself",
and section 3 says `Empty` is one tag among `Ally/Enemy/Obstacle/Item`, so
`is_empty` holds exactly for `Tile::Empty`. -/
def Tile.is_empty (t : Tile) : Bool := t == Tile.empty

/-- The occupancy grid `[[Tile; LEVEL_HEIGHT]; LEVEL_WIDTH]` of level.rs,
indexed as `grid x y`.  Every access the modelled code performs is
bounds-checked before the read, so a total function is a faithful model of the
Rust array. -/
def Grid := Nat → Nat → Tile

/-- A single array write `grid[x][y] = t`. -/
def Grid.set (g : Grid) (x y : Nat) (t : Tile) : Grid :=
  fun a b => if a = x ∧ b = y then t else g a b

/-- math.rs `Frontier`.  Its `Ord` instance compares `priority` reversed, so
the `BinaryHeap` used by `pathfind` pops a minimum-priority entry. -/
structure Frontier where
  priority : Nat
  position : Position
  deriving DecidableEq, Repr

/-- Pop of the `BinaryHeap<Frontier>`: removes an entry of minimal priority.
Which entry among several of equal priority is returned is unspecified for the
Rust heap; this model takes the first minimal one in the list.  The theorems
below do not depend on that choice. -/
def popMin : List Frontier → Option (Frontier × List Frontier)
  | [] => none
  | f :: fs =>
    match popMin fs with
    | none => some (f, fs)
    | some (g, rest) =>
      if f.priority ≤ g.priority then some (f, fs) else some (g, f :: rest)

/-- The footprint check of the labelled `'a` loop in math.rs `pathfind`: every
cell covered by the mover's footprint anchored at `adjacent` must be in bounds
and must hold either the mover's own tile or an empty tile; otherwise the
neighbour is skipped (`continue 'a`). -/
def footprintOk (grid : Grid) (start_tile : Tile) (width height : Nat)
    (adjacent : Position) : Bool :=
  (List.range width).all fun i =>
    (List.range height).all fun j =>
      decide (adjacent.x + i < LEVEL_WIDTH) &&
        decide (adjacent.y + j < LEVEL_HEIGHT) &&
        (grid (adjacent.x + i) (adjacent.y + j) == start_tile ||
          (grid (adjacent.x + i) (adjacent.y + j)).is_empty)

/-- The mutable state of the search loop in math.rs `pathfind`: the frontier
heap and the `came_from` / `costs` hash maps (modelled as functions). -/
structure SearchState where
  frontier : List Frontier
  came_from : Position → Option (Option Position)
  costs : Position → Option Nat

/-- Body of the `for adjacent in &position.adjacent()` loop of `pathfind`:
skip the neighbour unless the footprint check passes, then relax its cost and
record predecessor and priority.  `costs.get(&position).unwrap()` cannot fail
(every popped position has a recorded cost); the `unwrap` is modelled by
`getD 0`. -/
def relaxNeighbor (grid : Grid) (goal : Position) (start_tile : Tile)
    (width height : Nat) (position : Position) (s : SearchState)
    (adjacent : Position) : SearchState :=
  if footprintOk grid start_tile width height adjacent then
    let new_cost := (s.costs position).getD 0 + 1
    if (match s.costs adjacent with
        | none => true
        | some c => decide (new_cost < c)) then
      let diagonal : Nat :=
        if position.x ≠ adjacent.x ∧ position.y ≠ adjacent.y then 1 else 0
      { frontier :=
          { priority := new_cost + adjacent.distance goal + diagonal,
            position := adjacent } :: s.frontier,
        came_from := fun p => if p = adjacent then some (some position) else s.came_from p,
        costs := fun p => if p = adjacent then some new_cost else s.costs p }
    else s
  else s

/-- The `while let Some(..) = frontier.pop()` loop of `pathfind`, with explicit
fuel.  The Rust loop terminates because every reinsertion of a position
strictly lowers its recorded cost, all costs are below the number of grid
cells, and the loop breaks as soon as the goal is popped; `searchFuel` below
is a generous upper bound on the number of iterations on the 16 x 32 grid. -/
def searchLoop (grid : Grid) (goal : Position) (start_tile : Tile)
    (width height : Nat) : Nat → SearchState → SearchState
  | 0, s => s
  | fuel + 1, s =>
    match popMin s.frontier with
    | none => s
    | some (f, rest) =>
      if f.position = goal then { s with frontier := rest }
      else
        searchLoop grid goal start_tile width height fuel
          (f.position.adjacent.foldl
            (relaxNeighbor grid goal start_tile width height f.position)
            { s with frontier := rest })

/-- Fuel bound for `searchLoop`; see the comment there. -/
def searchFuel : Nat := LEVEL_WIDTH * LEVEL_HEIGHT * LEVEL_WIDTH * LEVEL_HEIGHT + 1

/-- The path-reconstruction loop of `pathfind`
(`while position != start { path.push(position); position = came_from[..]? }`),
with explicit fuel.  A `came_from` chain strictly decreases the recorded cost,
so its length is bounded by `searchFuel`; `none` models the `return None` on a
broken predecessor chain (and fuel exhaustion, which cannot occur on chains
produced by the search loop). -/
def reconstructLoop (came_from : Position → Option (Option Position))
    (start : Position) : Nat → Position → List Position → Option (List Position)
  | 0, _, _ => none
  | fuel + 1, position, path =>
    if position = start then some path
    else
      match came_from position with
      | some (some prev) => reconstructLoop came_from start fuel prev (path ++ [position])
      | _ => none

/-- The initial search state of `pathfind`: the frontier holds `start` with
priority 0, `came_from` is empty, and `costs` maps `start` to 0. -/
def initialSearchState (start : Position) : SearchState :=
  { frontier := [{ priority := 0, position := start }],
    came_from := fun _ => none,
    costs := fun p => if p = start then some 0 else none }

/-- math.rs `pathfind`: best-first search from `start` to `goal` over `grid`
for a mover occupying `start_tile` with the given footprint `dimensions`,
returning the path from `start` (exclusive) to `goal` (inclusive), or `none`. -/
def pathfind (start goal : Position) (grid : Grid) (start_tile : Tile)
    (dimensions : Nat × Nat) : Option (List Position) :=
  let s := searchLoop grid goal start_tile dimensions.1 dimensions.2 searchFuel
    (initialSearchState start)
  match reconstructLoop s.came_from start searchFuel goal [] with
  | some path => some path.reverse
  | none => none

/-- The inner `for dist in 1..=range` walk of math.rs `attack_positions`:
step outward in one direction, collecting `(position, dist)` while the cells
are empty, stopping at the grid edge or the first non-empty cell. -/
def attackRay (grid : Grid) (p : Position) (direction : Direction) :
    Nat → Nat → List (Position × Nat)
  | _, 0 => []
  | dist, remaining + 1 =>
    match p.in_direction direction dist with
    | none => []
    | some position =>
      if (grid position.x position.y).is_empty then
        (position, dist) :: attackRay grid p direction (dist + 1) remaining
      else []

/-- math.rs `attack_positions`: all empty cells from which a unit with the
given footprint `dimensions` standing at `position` could be hit within
`range`, paired with the distance used. -/
def attack_positions (position : Position) (range : Nat) (grid : Grid)
    (dimensions : Nat × Nat) : List (Position × Nat) :=
  let width := dimensions.1
  let height := dimensions.2
  (List.range width).foldl
    (fun acc i =>
      (List.range height).foldl
        (fun acc j =>
          if LEVEL_WIDTH ≤ position.x + i ∨ LEVEL_HEIGHT ≤ position.y + j then acc
          else
            let p : Position := ⟨position.x + i, position.y + j⟩
            Direction.all.foldl
              (fun acc direction => acc ++ attackRay grid p direction 1 range) acc)
        acc)
    []

/-- ability.rs `Ability` (the thirteen catalogued variants).  level.rs also
pattern-matches `Ability::Garlic` and `Ability::HolyWater` in the ally item
system; those variants belong to a later iteration of the enum, are absent
from the `abilities()` catalog, and are not needed by any claim, so they are
not modelled. -/
inductive Ability where
  | whip
  | crossbowIronBolt
  | crossbowSilverBolt
  | thwack
  | sword
  | hellfire
  | vampireBite
  | mist
  | woodenStake
  | batBite
  | vampireScratch
  | bigBatBite
  | spawnBat
  deriving DecidableEq, Repr

/-- ability.rs `DamageKind`. -/
inductive DamageKind where
  | normal
  | silver
  | holy
  | fire
  | lifeSteal
  | stake
  | sunlight
  deriving DecidableEq, Repr

/-- level.rs `EnemyKind`. -/
inductive EnemyKind where
  | bat
  | vampire
  | bigBatty
  deriving DecidableEq, Repr

/-- level.rs `Effect`. -/
inductive Effect where
  | burn
  | mist
  deriving DecidableEq, Repr

/-- level.rs `EffectStats`. -/
structure EffectStats where
  magnitude : Nat
  duration : Nat
  deriving DecidableEq, Repr

/-- ability.rs `Action`. -/
inductive Action where
  | attack (damage_kind : DamageKind) (damage : Nat)
  | push (damage_kind : DamageKind) (damage : Nat) (distance : Nat)
  | effect (effect : Effect) (stats : EffectStats)
  | spawn (enemy_kind : EnemyKind) (cooldown : Nat)
  deriving DecidableEq, Repr

/-- ability.rs `AbilityStats`. -/
structure AbilityStats where
  name : String
  action : Action
  range : Nat
  acquirable : Bool
  consumable : Bool
  persistent : Bool
  deriving DecidableEq, Repr

/-- ability.rs `abilities()`: the static catalog.  The `HashMap` contains an
entry for each of the thirteen `Ability` variants, so it is modelled as a
total function. -/
def abilities : Ability → AbilityStats
  | Ability.whip =>
    { name := "Whip", action := Action.attack DamageKind.silver 2, range := 2,
      acquirable := false, consumable := false, persistent := false }
  | Ability.crossbowIronBolt =>
    { name := "Crossbow (Iron Bolts)", action := Action.attack DamageKind.normal 2,
      range := 6, acquirable := false, consumable := true, persistent := true }
  | Ability.crossbowSilverBolt =>
    { name := "Crossbow (Silver Bolts)", action := Action.attack DamageKind.silver 2,
      range := 6, acquirable := false, consumable := true, persistent := true }
  | Ability.thwack =>
    { name := "Thwack", action := Action.push DamageKind.silver 2 4, range := 2,
      acquirable := false, consumable := true, persistent := false }
  | Ability.sword =>
    { name := "Sword", action := Action.attack DamageKind.normal 2, range := 1,
      acquirable := false, consumable := false, persistent := false }
  | Ability.hellfire =>
    { name := "Hellfire", action := Action.attack DamageKind.fire 2, range := 6,
      acquirable := false, consumable := true, persistent := false }
  | Ability.vampireBite =>
    { name := "Vampire Bite", action := Action.attack DamageKind.lifeSteal 1,
      range := 1, acquirable := false, consumable := false, persistent := false }
  | Ability.mist =>
    { name := "Mist",
      action := Action.effect Effect.mist { magnitude := 0, duration := 2 },
      range := 0, acquirable := false, consumable := true, persistent := false }
  | Ability.woodenStake =>
    { name := "Wooden Stake", action := Action.attack DamageKind.stake 1,
      range := 1, acquirable := true, consumable := true, persistent := true }
  | Ability.batBite =>
    { name := "Bat Bite", action := Action.attack DamageKind.normal 1, range := 1,
      acquirable := false, consumable := false, persistent := false }
  | Ability.vampireScratch =>
    { name := "Vampire Scratch", action := Action.attack DamageKind.normal 2,
      range := 1, acquirable := false, consumable := false, persistent := false }
  | Ability.bigBatBite =>
    { name := "Big Bat Bite", action := Action.attack DamageKind.normal 2,
      range := 1, acquirable := false, consumable := false, persistent := false }
  | Ability.spawnBat =>
    { name := "Spawn Bat", action := Action.spawn EnemyKind.bat 3, range := 1,
      acquirable := false, consumable := false, persistent := false }

/-- ability.rs `ability_lists()`. -/
def ability_lists : List (List (Ability × Nat)) :=
  [[(Ability.whip, 1), (Ability.crossbowIronBolt, 5), (Ability.crossbowSilverBolt, 2),
      (Ability.thwack, 2)],
    [(Ability.sword, 1), (Ability.hellfire, 3), (Ability.vampireBite, 1),
      (Ability.mist, 1)],
    [(Ability.batBite, 1)],
    [(Ability.vampireScratch, 1), (Ability.vampireBite, 1)],
    [(Ability.bigBatBite, 1), (Ability.spawnBat, 1)]]

/-- The `Trait` enum.  traits.rs declares the four vulnerability variants, but
level.rs (the final iteration the claims are about) also matches
`Trait::HolyFromSunlight` in `damage_bonus` and queries `Trait::GarlicAllergy`
in `Enemy::plan`, and ui.rs describes `HolyFromSunlight` as "Sunlight deals
holy damage"; the enum those files compile against therefore contains these
variants as well, and they are included here.  (A `Trait::Mist` variant
appearing only in ui.rs is irrelevant to every claim and omitted.) -/
inductive Trait where
  | silverVulnerable
  | holyVulnerable
  | stakeVulnerable
  | sunlightVulnerable
  | holyFromSunlight
  | garlicAllergy
  deriving DecidableEq, Repr

/-- traits.rs `trait_lists()`. -/
def trait_lists : List (List Trait) :=
  [[],
    [Trait.silverVulnerable, Trait.holyVulnerable, Trait.stakeVulnerable,
      Trait.sunlightVulnerable]]

/-- level.rs `damage_bonus`: the flat per-trait bonus for a damage kind,
summed over the target's traits. -/
def damage_bonus (damage_kind : DamageKind) (traits : List Trait) : Nat :=
  (traits.map fun trait_ =>
    match damage_kind, trait_ with
    | DamageKind.silver, Trait.silverVulnerable => 1
    | DamageKind.holy, Trait.holyVulnerable => 2
    | DamageKind.stake, Trait.stakeVulnerable => 1000
    | DamageKind.sunlight, Trait.sunlightVulnerable => 1000
    | DamageKind.sunlight, Trait.holyFromSunlight => 2
    | _, _ => 0).sum

/-- Lookup in a `HashMap` modelled as an association list
(`m.get(&k)`). -/
def mapGet {κ ν : Type} [DecidableEq κ] (m : List (κ × ν)) (k : κ) : Option ν :=
  (m.find? fun e => decide (e.1 = k)).map Prod.snd

/-- Insert-or-replace in a `HashMap` modelled as an association list
(`m.insert(k, v)`, and in-place `get_mut` updates). -/
def mapInsert {κ ν : Type} [DecidableEq κ] (m : List (κ × ν)) (k : κ) (v : ν) :
    List (κ × ν) :=
  if (m.find? fun e => decide (e.1 = k)).isSome then
    m.map fun e => if e.1 = k then (k, v) else e
  else m ++ [(k, v)]

/-- Removal from a `HashMap` modelled as an association list
(`m.remove(&k)`). -/
def mapErase {κ ν : Type} [DecidableEq κ] (m : List (κ × ν)) (k : κ) :
    List (κ × ν) :=
  m.filter fun e => decide (e.1 ≠ k)

/-- level.rs `Ally`: the state-relevant fields.  The `path`/`index` movement
bookkeeping and the whip/sword child-animation fields drive presentation
(tween playback) only and are not modelled. -/
structure Ally where
  id : AllyId
  position : Position
  max_health : Nat
  health : Nat
  speed : Nat
  view_distance : Nat
  abilities : List Ability
  uses : List (Ability × Nat)
  traits : List Trait
  selected_ability : Nat
  has_moved : Bool
  has_acted : Bool
  effects : List (Effect × EffectStats)
  animation : String
  deriving DecidableEq, Repr

/-- level.rs `EnemyAction`. -/
inductive EnemyAction where
  | attack (ally_id : AllyId) (damage_kind : DamageKind) (damage : Nat)
  | spawn (enemy_kind : EnemyKind) (position : Position)
  deriving DecidableEq, Repr

/-- level.rs `Enemy`: the state-relevant fields.  The `path`/`index` movement
bookkeeping and `current_ability` staging drive the tween-callback machinery
of `next_position` (presentation) and are not modelled. -/
structure Enemy where
  id : EnemyId
  position : Position
  kind : EnemyKind
  max_health : Nat
  health : Nat
  speed : Nat
  view_distance : Nat
  width : Nat
  height : Nat
  abilities : List Ability
  uses : List (Ability × Nat)
  cooldowns : List (Ability × Nat)
  traits : List Trait
  effects : List (Effect × EffectStats)
  last_known_positions : List (AllyId × Position)
  animation : String
  deriving DecidableEq, Repr

/-- level.rs `Ally::heal`:
`self.health = cmp::min(self.health + amount, self.max_health)`. -/
def Ally.heal (a : Ally) (amount : Nat) : Ally :=
  { a with health := min (a.health + amount) a.max_health }

/-- level.rs `Enemy::heal` (identical to `Ally::heal`). -/
def Enemy.heal (e : Enemy) (amount : Nat) : Enemy :=
  { e with health := min (e.health + amount) e.max_health }

/-- The animation switch shared verbatim by `Ally::hit` and `Enemy::hit`:
on death (health 0) the idle animation becomes the matching death animation,
otherwise the matching hit animation; any other current animation is
`unreachable!()`, modelled as `none`. -/
def hitAnimationUpdate (animation : String) (dead : Bool) : Option String :=
  if dead then
    if animation = "side_idle" then some "side_death"
    else if animation = "back_idle" then some "back_death"
    else if animation = "front_idle" then some "front_death"
    else none
  else
    if animation = "side_idle" then some "side_hit"
    else if animation = "back_idle" then some "back_hit"
    else if animation = "front_idle" then some "front_hit"
    else none

/-- The fire-damage branch shared by `Ally::hit` and `Enemy::hit`: increment
the magnitude of an existing Burn stack, otherwise insert a Burn with
magnitude 1 and duration 3. -/
def applyFireBurn (effects : List (Effect × EffectStats)) :
    List (Effect × EffectStats) :=
  match mapGet effects Effect.burn with
  | some stats =>
    mapInsert effects Effect.burn { stats with magnitude := stats.magnitude + 1 }
  | none => mapInsert effects Effect.burn { magnitude := 1, duration := 3 }

/-- level.rs `Ally::hit`: no-op while a Mist effect is active; otherwise
subtract `damage + damage_bonus` saturating at 0 (`checked_sub.unwrap_or(0)`),
stack a Burn on fire damage, and switch to the hit or death animation. -/
def Ally.hit (a : Ally) (damage : Nat) (damage_kind : DamageKind) : Option Ally :=
  if mapGet a.effects Effect.mist ≠ none then some a
  else
    let damage := damage + damage_bonus damage_kind a.traits
    let health := a.health - damage
    let effects :=
      if damage_kind = DamageKind.fire then applyFireBurn a.effects else a.effects
    match hitAnimationUpdate a.animation (decide (health = 0)) with
    | some animation =>
      some { a with health := health, effects := effects, animation := animation }
    | none => none

/-- level.rs `Enemy::hit` (identical to `Ally::hit`). -/
def Enemy.hit (e : Enemy) (damage : Nat) (damage_kind : DamageKind) : Option Enemy :=
  if mapGet e.effects Effect.mist ≠ none then some e
  else
    let damage := damage + damage_bonus damage_kind e.traits
    let health := e.health - damage
    let effects :=
      if damage_kind = DamageKind.fire then applyFireBurn e.effects else e.effects
    match hitAnimationUpdate e.animation (decide (health = 0)) with
    | some animation =>
      some { e with health := health, effects := effects, animation := animation }
    | none => none

/-- level.rs `Ally::current_ability`:
`&self.abilities[self.selected_ability]`; an out-of-range index would panic,
modelled as `none`. -/
def Ally.current_ability (a : Ally) : Option Ability :=
  a.abilities.get? a.selected_ability

/-- The consumable-accounting prefix of level.rs `Ally::use_ability`
(the `if stats.consumable` block): decrement the use counter; if the ability
is also acquirable and the counter reached 0, remove the ability at the
selected index, drop its counter, and clamp the selection.  `none` models the
`uses.get_mut(..).unwrap()` panic.  (`*uses -= 1` underflows in Rust when the
counter is already 0; callers only invoke this with a positive counter, and
the model uses truncated subtraction.  The `len - 1` clamp is likewise
truncated `Nat` subtraction.) -/
def allyUsesAccounting (a : Ally) (ability : Ability) : Option Ally :=
  let stats := abilities ability
  if stats.consumable then
    match mapGet a.uses ability with
    | none => none
    | some u =>
      let u' := u - 1
      let a' := { a with uses := mapInsert a.uses ability u' }
      if stats.acquirable ∧ u' = 0 then
        let abilities' := a'.abilities.eraseIdx a'.selected_ability
        some { a' with
          abilities := abilities',
          uses := mapErase a'.uses ability,
          selected_ability :=
            if abilities'.length ≤ a'.selected_ability then abilities'.length - 1
            else a'.selected_ability }
      else some a'
  else some a

/-- The animation switch of level.rs `Ally::use_ability`: pick the ability's
cast animation facing the target.  Sprite flips, whip/sword child-node
visibility and projectile construction are presentation-side.  `none` models
the `unreachable!()` arms (the direction panic at equal positions, a non-idle
animation for Mist, and the non-ally abilities of the wildcard arm). -/
def allyAnimationSwitch (a : Ally) (ability : Ability) (position : Position) :
    Option Ally :=
  match ability with
  | Ability.whip | Ability.thwack =>
    match a.position.direction_to position with
    | some Direction.left => some { a with animation := "side_whip" }
    | some Direction.right => some { a with animation := "side_whip" }
    | some Direction.up => some { a with animation := "back_whip" }
    | some Direction.down => some { a with animation := "front_whip" }
    | none => none
  | Ability.crossbowIronBolt | Ability.crossbowSilverBolt =>
    match a.position.direction_to position with
    | some Direction.left => some { a with animation := "side_crossbow" }
    | some Direction.right => some { a with animation := "side_crossbow" }
    | some Direction.up => some { a with animation := "back_crossbow" }
    | some Direction.down => some { a with animation := "front_crossbow" }
    | none => none
  | Ability.sword =>
    match a.position.direction_to position with
    | some Direction.left => some { a with animation := "side_sword" }
    | some Direction.right => some { a with animation := "side_sword" }
    | some Direction.up => some { a with animation := "back_sword" }
    | some Direction.down => some { a with animation := "front_sword" }
    | none => none
  | Ability.hellfire =>
    match a.position.direction_to position with
    | some Direction.left => some { a with animation := "side_hellfire" }
    | some Direction.right => some { a with animation := "side_hellfire" }
    | some Direction.up => some { a with animation := "back_hellfire" }
    | some Direction.down => some { a with animation := "front_hellfire" }
    | none => none
  | Ability.vampireBite =>
    match a.position.direction_to position with
    | some Direction.left => some { a with animation := "side_bite" }
    | some Direction.right => some { a with animation := "side_bite" }
    | some Direction.up => some { a with animation := "back_bite" }
    | some Direction.down => some { a with animation := "front_bite" }
    | none => none
  | Ability.mist =>
    if a.animation = "side_idle" then some { a with animation := "side_mist" }
    else if a.animation = "back_idle" then some { a with animation := "back_mist" }
    else if a.animation = "front_idle" then some { a with animation := "front_mist" }
    else none
  | Ability.woodenStake =>
    match a.position.direction_to position with
    | some Direction.left => some { a with animation := "side_stake" }
    | some Direction.right => some { a with animation := "side_stake" }
    | some Direction.up => some { a with animation := "back_stake" }
    | some Direction.down => some { a with animation := "front_stake" }
    | none => none
  | _ => none

/-- level.rs `Ally::use_ability`: fetch the selected ability, run the
consumable accounting, then the animation switch.  The returned projectile
node is presentation-side and not part of the state model. -/
def Ally.use_ability (a : Ally) (position : Position) : Option Ally :=
  match a.current_ability with
  | none => none
  | some ability =>
    (allyUsesAccounting a ability).bind fun a' =>
      allyAnimationSwitch a' ability position

/-- The consumable-accounting prefix of level.rs `Enemy::use_ability`.
Unlike the ally version there is no `acquirable` check: a consumable ability
whose counter reaches 0 is removed from `uses` and from the ability list
unconditionally.  `none` models the `unwrap` panics (a missing use counter, or
the ability not present in the list). -/
def enemyUsesAccounting (e : Enemy) (ability : Ability) : Option Enemy :=
  let stats := abilities ability
  if stats.consumable then
    match mapGet e.uses ability with
    | none => none
    | some u =>
      let u' := u - 1
      if u' = 0 then
        match e.abilities.findIdx? fun a => decide (a = ability) with
        | none => none
        | some i =>
          some { e with
            uses := mapErase (mapInsert e.uses ability u') ability,
            abilities := e.abilities.eraseIdx i }
      else some { e with uses := mapInsert e.uses ability u' }
  else some e

/-- level.rs `Enemy::use_ability`: consumable accounting, then the enemy
animation switch (`unreachable!()` for any ability outside the enemy arms,
modelled as `none`). -/
def Enemy.use_ability (e : Enemy) (ability : Ability) (position : Position) :
    Option Enemy :=
  (enemyUsesAccounting e ability).bind fun e' =>
    match ability with
    | Ability.batBite | Ability.vampireScratch | Ability.vampireBite
    | Ability.bigBatBite =>
      match e'.position.direction_to position with
      | some Direction.left => some { e' with animation := "side_attack" }
      | some Direction.right => some { e' with animation := "side_attack" }
      | some Direction.up => some { e' with animation := "back_attack" }
      | some Direction.down => some { e' with animation := "front_attack" }
      | none => none
    | Ability.spawnBat => some e'
    | _ => none

/-- level.rs `ObstacleKind`. -/
inductive ObstacleKind where
  | wall
  | lowWall
  | barrel
  deriving DecidableEq, Repr

/-- level.rs `ItemKind`. -/
inductive ItemKind where
  | ironBolt
  | silverBolt
  | woodenStake
  | garlic
  | holyWater
  deriving DecidableEq, Repr

/-- level.rs `Item`: the state-relevant fields. -/
structure Item where
  id : ItemId
  position : Position
  kind : ItemKind
  deriving DecidableEq, Repr

/-- level.rs `Turn`. -/
inductive Turn where
  | ally
  | enemy (i : Nat) (waiting : Bool)
  deriving DecidableEq, Repr

/-- level.rs `Level`: the state-relevant fields.  The entity `HashMap`s store
Godot instance ids resolved through `instance_from_id`; the model stores the
entity records directly, as association lists whose order stands for the
(unspecified) `HashMap` iteration order.  `obstacles` only ever serves
`get_obstacle(id).kind` lookups from the visibility engine and is modelled as
a total function. -/
structure LevelState where
  grid : Grid
  turn : Turn
  turn_order : List (EnemyId × Nat)
  spawn_queue : List EnemyId
  allies : List (AllyId × Ally)
  enemies : List (EnemyId × Enemy)
  obstacles : ObstacleId → ObstacleKind
  items : List (ItemId × Item)

/-- math.rs `Cardinal`. -/
inductive Cardinal where
  | north
  | east
  | south
  | west
  deriving DecidableEq, Repr

/-- The `strum` `EnumIter` order of `Cardinal` (declaration order). -/
def Cardinal.all : List Cardinal := [.north, .east, .south, .west]

/-- math.rs `Quadrant`. -/
structure Quadrant where
  origin : Position
  cardinal : Cardinal
  deriving DecidableEq, Repr

/-- Rust `as usize` applied to a (possibly negative) machine integer:
wraps into the unsigned 64-bit range. -/
def usizeOfInt (i : Int) : Nat := (i % (2 ^ 64 : Int)).toNat

/-- math.rs `Quadrant::transform`. -/
def Quadrant.transform (q : Quadrant) (tile : Int × Int) : Position :=
  match q.cardinal with
  | Cardinal.north =>
    ⟨usizeOfInt ((q.origin.x : Int) + tile.2), usizeOfInt ((q.origin.y : Int) - tile.1)⟩
  | Cardinal.east =>
    ⟨usizeOfInt ((q.origin.x : Int) + tile.2), usizeOfInt ((q.origin.y : Int) + tile.1)⟩
  | Cardinal.south =>
    ⟨usizeOfInt ((q.origin.x : Int) + tile.1), usizeOfInt ((q.origin.y : Int) + tile.2)⟩
  | Cardinal.west =>
    ⟨usizeOfInt ((q.origin.x : Int) - tile.1), usizeOfInt ((q.origin.y : Int) + tile.2)⟩

/-- Exact rational arithmetic, modelling `num_rational::Rational32` (the
numerators and denominators reached on a 16 x 32 grid are far below the `i32`
bounds).  Every fraction built by the visibility engine has a positive
denominator; values are not reduced to lowest terms, which cannot affect any
comparison, floor or ceiling.  (Written as an explicit pair rather than with
`Rat` so that it evaluates inside the kernel.) -/
structure Frac where
  num : Int
  den : Int
  deriving DecidableEq, Repr

/-- `Rational32::from_integer`. -/
def Frac.ofInt (n : Int) : Frac := ⟨n, 1⟩

/-- Rational multiplication. -/
def Frac.mul (a b : Frac) : Frac := ⟨a.num * b.num, a.den * b.den⟩

/-- Rational addition. -/
def Frac.add (a b : Frac) : Frac :=
  ⟨a.num * b.den + b.num * a.den, a.den * b.den⟩

/-- Rational subtraction. -/
def Frac.sub (a b : Frac) : Frac :=
  ⟨a.num * b.den - b.num * a.den, a.den * b.den⟩

/-- Rational comparison (cross multiplication; denominators positive). -/
def Frac.le (a b : Frac) : Bool := decide (a.num * b.den ≤ b.num * a.den)

/-- Rational floor (the denominator is positive, so this is floor division of
the numerator). -/
def Frac.floor (f : Frac) : Int := f.num.fdiv f.den

/-- Rational ceiling. -/
def Frac.ceil (f : Frac) : Int := -((-f.num).fdiv f.den)

/-- math.rs `Row`. -/
structure Row where
  depth : Int
  start_slope : Frac
  end_slope : Frac
  deriving DecidableEq, Repr

/-- math.rs `round_ties_up`: `(n + 1/2).floor()`. -/
def round_ties_up (n : Frac) : Int := (n.add ⟨1, 2⟩).floor

/-- math.rs `round_ties_down`: `(n - 1/2).ceil()`. -/
def round_ties_down (n : Frac) : Int := (n.sub ⟨1, 2⟩).ceil

/-- The inclusive integer range `lo..=hi` as a list. -/
def intRangeIncl (lo hi : Int) : List Int :=
  (List.range (hi + 1 - lo).toNat).map fun k => lo + k

/-- math.rs `Row::tiles`. -/
def Row.tiles (r : Row) : List (Int × Int) :=
  (intRangeIncl (round_ties_up ((Frac.ofInt r.depth).mul r.start_slope))
      (round_ties_down ((Frac.ofInt r.depth).mul r.end_slope))).map
    fun col => (r.depth, col)

/-- math.rs `Row::next`. -/
def Row.next (r : Row) : Row := { r with depth := r.depth + 1 }

/-- math.rs `slope`: `Rational32::new(2 * col - 1, 2 * row)`. -/
def slope (tile : Int × Int) : Frac := ⟨2 * tile.2 - 1, 2 * tile.1⟩

/-- math.rs `is_symmetric`:
`col >= depth * start_slope && col <= depth * end_slope`. -/
def is_symmetric (row : Row) (tile : Int × Int) : Bool :=
  Frac.le ((Frac.ofInt row.depth).mul row.start_slope) (Frac.ofInt tile.2) &&
    Frac.le (Frac.ofInt tile.2) ((Frac.ofInt row.depth).mul row.end_slope)

/-- math.rs `is_wall`: out-of-bounds cells and full-blocking obstacle kinds
(`Wall`, `Barrel`) are opaque; `LowWall` and every other tile are not. -/
def is_wall (position : Position) (level : LevelState) : Bool :=
  if LEVEL_WIDTH ≤ position.x ∨ LEVEL_HEIGHT ≤ position.y then true
  else
    match level.grid position.x position.y with
    | Tile.obstacle id =>
      match level.obstacles id with
      | ObstacleKind.wall => true
      | ObstacleKind.barrel => true
      | ObstacleKind.lowWall => false
    | _ => false

/-- math.rs `scan`: one recursive shadowcasting pass over a quadrant.  The
`for tile in row.tiles()` loop mutates `row.start_slope` and `prev_position`
and accumulates visible positions; it is modelled as a fold carrying that
state.  The recursion is structural on the remaining view `distance`. -/
def scan (quadrant : Quadrant) (row : Row) (distance : Nat) (level : LevelState) :
    List Position :=
  match distance with
  | 0 => []
  | d + 1 =>
    let step := fun (st : Row × Option Position × List Position) (tile : Int × Int) =>
      let row := st.1
      let prev_position := st.2.1
      let visible := st.2.2
      let position := quadrant.transform tile
      let visible :=
        if is_wall position level || is_symmetric row tile then visible ++ [position]
        else visible
      let row' :=
        match prev_position with
        | some prev =>
          if is_wall prev level && !is_wall position level then
            { row with start_slope := slope tile }
          else row
        | none => row
      let visible :=
        match prev_position with
        | some prev =>
          if !is_wall prev level && is_wall position level then
            visible ++ scan quadrant { row'.next with end_slope := slope tile } d level
          else visible
        | none => visible
      (row', some position, visible)
    let final := row.tiles.foldl step (row, none, [])
    match final.2.1 with
    | some prev =>
      if !is_wall prev level then final.2.2 ++ scan quadrant final.1.next d level
      else final.2.2
    | none => final.2.2

/-- math.rs `compute_fov`: the origin plus a shadowcasting scan of each of the
four quadrants.  The Rust `HashSet` is modelled as a list; only membership in
the result is ever consumed. -/
def compute_fov (origin : Position) (distance : Nat) (level : LevelState) :
    List Position :=
  Cardinal.all.foldl
    (fun visible cardinal =>
      visible ++
        scan { origin := origin, cardinal := cardinal }
          { depth := 1, start_slope := Frac.ofInt (-1), end_slope := Frac.ofInt 1 }
          distance level)
    [origin]

/-- Rust `Ord::cmp` on unsigned integers. -/
def natCmp (a b : Nat) : Ordering :=
  if a < b then Ordering.lt else if a = b then Ordering.eq else Ordering.gt

/-- Rust `Ord::cmp` on `bool` (`false < true`). -/
def boolCmp (a b : Bool) : Ordering :=
  match a, b with
  | false, true => Ordering.lt
  | true, false => Ordering.gt
  | _, _ => Ordering.eq

/-- Rust `slice::sort_by` with a comparator: a stable sort, modelled by
insertion sort on the non-`Greater` relation.  Insertion sort is stable in the
same sense as Rust's merge-based `sort_by` (elements comparing `Equal` keep
their original relative order), and for a comparator that is a total preorder
the two algorithms coincide; the stability theorems below are proved for this
model. -/
def sortByCmp {α : Type} (cmp : α → α → Ordering) (l : List α) : List α :=
  List.insertionSort (fun a b => cmp a b ≠ Ordering.gt) l

/-- A candidate produced by level.rs `Enemy::plan`:
`(Option<Ability>, EnemyAction, u16 range, Vec<Position> path)`. -/
abbrev Candidate := Option Ability × EnemyAction × Nat × List Position

/-- The ally-traits lookup performed inside the `plan` comparator
(`instance_from_id(level.allies[ally_id]) .. .traits`); the lookup cannot fail
for candidates produced by `plan`, and a missing ally is modelled by the empty
trait list. -/
def allyTraitsOf (level : LevelState) (id : AllyId) : List Trait :=
  ((mapGet level.allies id).map Ally.traits).getD []

/-- The candidate comparator of `actions.sort_by` in level.rs `Enemy::plan`.
Attack candidates compare by: reachability within `speed` (descending), then
effective damage `damage + damage_bonus` against the target ally (descending),
then ability range (descending), then movement cost — the path length —
(ascending).  An Attack compares `Greater` than a Spawn (so Spawns sort first),
and Spawns compare `Equal` among themselves. -/
def candidateCmp (traitsOf : AllyId → List Trait) (speed : Nat)
    (a b : Candidate) : Ordering :=
  match a.2.1, b.2.1 with
  | EnemyAction.attack a_ally_id a_damage_kind a_damage,
    EnemyAction.attack b_ally_id b_damage_kind b_damage =>
    let a_damage := a_damage + damage_bonus a_damage_kind (traitsOf a_ally_id)
    let b_damage := b_damage + damage_bonus b_damage_kind (traitsOf b_ally_id)
    let a_cost := a.2.2.2.length
    let b_cost := b.2.2.2.length
    let a_within := decide (a_cost ≤ speed)
    let b_within := decide (b_cost ≤ speed)
    ((boolCmp a_within b_within).swap).then
      (((natCmp a_damage b_damage).swap).then
        (((natCmp a.2.2.1 b.2.2.1).swap).then (natCmp a_cost b_cost)))
  | EnemyAction.attack _ _ _, EnemyAction.spawn _ _ => Ordering.gt
  | EnemyAction.spawn _ _, EnemyAction.attack _ _ _ => Ordering.lt
  | EnemyAction.spawn _ _, EnemyAction.spawn _ _ => Ordering.eq

/-- level.rs `Enemy::plan`.  Returns the updated enemy (`last_known_positions`
may change), the chosen movement path and the chosen ability/action.  `none`
models the `unreachable!()` on an owned ability whose action is neither Attack
nor Spawn.  The iteration order over the `level.allies` HashMap is unspecified
in Rust; the model iterates the association list in order, making that order
an explicit part of the input state. -/
def Enemy.plan (e : Enemy) (level : LevelState) :
    Option (Enemy × Option (List Position) × Option (Ability × EnemyAction)) :=
  let visible := compute_fov e.position e.view_distance level
  let dimensions := (e.width, e.height)
  let grid :=
    if e.traits.contains Trait.garlicAllergy then
      level.items.foldl
        (fun grid x =>
          match x.2.kind with
          | ItemKind.garlic =>
            x.2.position.adjacent.foldl
              (fun grid p => grid.set p.x p.y (Tile.obstacle 0))
              (grid.set x.2.position.x x.2.position.y (Tile.obstacle 0))
          | _ => grid)
        level.grid
    else level.grid
  let folded : Option (List (AllyId × Position) × List Candidate) :=
    e.abilities.foldlM
      (fun st ability =>
        match (Game.abilities ability).action with
        | Action.attack damage_kind damage =>
          some (level.allies.foldl
            (fun st x =>
              let lastKnown := st.1
              let actions := st.2
              if visible.contains x.2.position then
                let lastKnown' := mapInsert lastKnown x.1 x.2.position
                let cands :=
                  (attack_positions x.2.position (Game.abilities ability).range grid
                      dimensions).filterMap
                    fun pr =>
                      (pathfind e.position pr.1 grid (Tile.enemy e.id)
                          dimensions).map
                        fun path =>
                          ((some ability : Option Ability),
                            EnemyAction.attack x.1 damage_kind damage, pr.2, path)
                (lastKnown', actions ++ cands)
              else
                match mapGet lastKnown x.1 with
                | some last_known_position =>
                  match pathfind e.position last_known_position grid
                      (Tile.enemy e.id) dimensions with
                  | some path =>
                    (lastKnown,
                      actions ++
                        [((none : Option Ability),
                            EnemyAction.attack x.1 damage_kind damage, 1, path)])
                  | none => (lastKnown, actions)
                | none => (lastKnown, actions))
            st)
        | Action.spawn enemy_kind _ =>
          let cooldown_finished := (mapGet e.cooldowns ability).getD 0 = 0
          let any_visible := level.allies.any fun x => visible.contains x.2.position
          if cooldown_finished ∧ any_visible then
            some (st.1,
              st.2 ++
                (List.range e.width).foldl
                  (fun acc i =>
                    (List.range e.height).foldl
                      (fun acc j =>
                        (Position.mk (e.position.x + i) (e.position.y + j)).adjacent.foldl
                          (fun acc adjacent =>
                            match level.grid adjacent.x adjacent.y with
                            | Tile.empty =>
                              acc ++
                                [((some ability : Option Ability),
                                    EnemyAction.spawn enemy_kind adjacent,
                                    (Game.abilities ability).range, [e.position])]
                            | Tile.item _ =>
                              acc ++
                                [((some ability : Option Ability),
                                    EnemyAction.spawn enemy_kind adjacent,
                                    (Game.abilities ability).range, [e.position])]
                            | _ => acc)
                          acc)
                      acc)
                  [])
          else some st
        | _ => none)
      (e.last_known_positions, ([] : List Candidate))
  match folded with
  | none => none
  | some st =>
    let e' := { e with last_known_positions := st.1 }
    if st.2.isEmpty then some (e', none, none)
    else
      match sortByCmp (candidateCmp (allyTraitsOf level) e.speed) st.2 with
      | [] => none
      | c :: _ =>
        if c.2.2.2.length ≤ e.speed then
          some (e', some c.2.2.2, c.1.map fun ability => (ability, c.2.1))
        else some (e', some (c.2.2.2.take e.speed), none)

/-- One enemy's end-of-round effect tick, from the `i == 0` block of the enemy
phase in level.rs `Level::process`: for each effect in a snapshot of the
effects map, apply Burn damage through `hit`, then decrement the duration,
evicting the effect at 0.  The snapshot (`effects.clone()`) is the list at
entry; the Rust iteration order over the cloned `HashMap` is unspecified and
is modelled by the list order.  (Stored durations are always positive, exactly
as in the source, where a 0 duration would underflow.) -/
def Enemy.effectsTick (e : Enemy) : Option Enemy :=
  e.effects.foldlM
    (fun acc x => do
      let eff := x.1
      let stats := x.2
      let acc ←
        match eff with
        | Effect.burn => Enemy.hit acc stats.magnitude DamageKind.normal
        | _ => pure acc
      let stats' : EffectStats := { stats with duration := stats.duration - 1 }
      if stats'.duration = 0 then pure { acc with effects := mapErase acc.effects eff }
      else pure { acc with effects := mapInsert acc.effects eff stats' })
    e

/-- The whole `i == 0` effect tick over all enemies (level.rs
`Level::process`, enemy phase): each enemy is ticked in place.  Only the
enemies map is modified; the grid and the turn order are not touched. -/
def LevelState.enemyEffectsTick (level : LevelState) : Option LevelState := do
  let enemies ← level.enemies.foldlM
    (fun acc x => do
      let e' ← Enemy.effectsTick x.2
      pure (acc ++ [(x.1, e')]))
    ([] : List (EnemyId × Enemy))
  pure { level with enemies := enemies }

/-- The cells covered by a footprint of size `width x height` anchored at `p`,
in the write order of the source's nested loops. -/
def footprintCells (p : Position) (width height : Nat) : List (Nat × Nat) :=
  (List.range width).flatMap fun i =>
    (List.range height).map fun j => (p.x + i, p.y + j)

/-- The grid writes `grid[pos.x + i][pos.y + j] = Empty` of the death branch
of level.rs `Enemy::animation_end`. -/
def clearFootprint (grid : Grid) (p : Position) (width height : Nat) : Grid :=
  (footprintCells p width height).foldl
    (fun g c => g.set c.1 c.2 Tile.empty) grid

/-- level.rs `Enemy::animation_end`, state-relevant part: attack/hit
animations fall back to idle; a death animation clears the enemy's footprint
from the grid, removes it from the enemies map, and removes its (first) entry
from the turn order.  Dialogue events and `queue_free` are presentation-side. -/
def Enemy.animation_end (name : String) (e : Enemy) (level : LevelState) :
    Enemy × LevelState :=
  if name = "side_attack" ∨ name = "side_hit" then
    ({ e with animation := "side_idle" }, level)
  else if name = "back_attack" ∨ name = "back_hit" then
    ({ e with animation := "back_idle" }, level)
  else if name = "front_attack" ∨ name = "front_hit" then
    ({ e with animation := "front_idle" }, level)
  else if name = "side_death" ∨ name = "back_death" ∨ name = "front_death" then
    let grid := clearFootprint level.grid e.position e.width e.height
    let enemies := mapErase level.enemies e.id
    let turn_order :=
      match level.turn_order.findIdx? fun x => decide (x.1 = e.id) with
      | some i => level.turn_order.eraseIdx i
      | none => level.turn_order
    (e, { level with grid := grid, enemies := enemies, turn_order := turn_order })
  else (e, level)

/-- The turn-order comparator
`|(_, a_speed), (_, b_speed)| a_speed.cmp(b_speed).reverse()` used in
level.rs `Level::ready` and `Level::process`. -/
def speedCmp (a b : EnemyId × Nat) : Ordering := (natCmp a.2 b.2).swap

/-- level.rs `Level::ready`: the initial turn order is the `(id, speed)` list
collected in scene order, sorted by the descending-speed comparator
(`sort_by` is a stable sort). -/
def initialTurnOrder (enemies : List (EnemyId × Nat)) : List (EnemyId × Nat) :=
  sortByCmp speedCmp enemies

/-- level.rs `Level::process`, round boundary: the queued spawned units are
pushed onto the turn order, which is then re-sorted with the same stable
descending-speed comparator. -/
def roundBoundaryTurnOrder (turn_order spawned : List (EnemyId × Nat)) :
    List (EnemyId × Nat) :=
  sortByCmp speedCmp (turn_order ++ spawned)

/-! Specification-level predicates for the pathfinder claims. -/

/-- One step of 4-adjacency as produced by `Position::adjacent`:
`q` is an in-bounds cardinal neighbour of `p`. -/
def Adj (p q : Position) : Prop := q ∈ p.adjacent

/-- A position is traversable for the mover exactly when the footprint check
of `pathfind` passes there: every covered cell is in bounds and holds either
the mover's own tile or an empty tile. -/
def Traversable (grid : Grid) (start_tile : Tile) (width height : Nat)
    (p : Position) : Prop :=
  footprintOk grid start_tile width height p = true

/-- Validity of a path returned by `pathfind`: an ordered sequence from
`start` (exclusive, with `start` as the predecessor of the first step) to
`goal` (inclusive), each step 4-adjacent to its predecessor, every step
traversable. -/
def PathOk (start goal : Position) (grid : Grid) (start_tile : Tile)
    (width height : Nat) (path : List Position) : Prop :=
  List.Chain Adj start path ∧
    (∀ q ∈ path, Traversable grid start_tile width height q ∧ q ≠ start) ∧
    (path = [] → start = goal) ∧
    (path ≠ [] → path.getLast? = some goal)

/-- The goal is reachable when some valid path leads to it. -/
def Reachable (start goal : Position) (grid : Grid) (start_tile : Tile)
    (width height : Nat) : Prop :=
  ∃ path, PathOk start goal grid start_tile width height path

/-- Invariant of the `came_from` map maintained by the search loop: every
recorded entry maps a traversable position to its 4-adjacent predecessor. -/
def CameFromOk (grid : Grid) (start_tile : Tile) (width height : Nat)
    (came_from : Position → Option (Option Position)) : Prop :=
  ∀ a op, came_from a = some op →
    ∃ p, op = some p ∧ Adj p a ∧ Traversable grid start_tile width height a

/-! Concrete states used by witnesses and counterexamples. -/

/-- An all-empty grid. -/
def emptyGrid : Grid := fun _ _ => Tile.empty

/-- A bat at `(2,2)` with the bat ability list, speed 2, view distance 2. -/
def baseEnemy : Enemy :=
  { id := 0, position := ⟨2, 2⟩, kind := EnemyKind.bat, max_health := 5,
    health := 5, speed := 2, view_distance := 2, width := 1, height := 1,
    abilities := [Ability.batBite], uses := [(Ability.batBite, 1)],
    cooldowns := [], traits := [], effects := [], last_known_positions := [],
    animation := "front_idle" }

/-- Ash Magnum at `(1,1)` with the ally ability list. -/
def baseAlly : Ally :=
  { id := AllyId.ashMagnum, position := ⟨1, 1⟩, max_health := 5, health := 5,
    speed := 3, view_distance := 2,
    abilities := [Ability.whip, Ability.crossbowIronBolt,
      Ability.crossbowSilverBolt, Ability.thwack],
    uses := [(Ability.whip, 1), (Ability.crossbowIronBolt, 5),
      (Ability.crossbowSilverBolt, 2), (Ability.thwack, 2)],
    traits := [], selected_ability := 0, has_moved := false, has_acted := false,
    effects := [], animation := "front_idle" }

/-- A unit at health 1 with no traits (counterexample input for the damage
claim). -/
def cexEnemyHealth1 : Enemy := { baseEnemy with health := 1 }

/-- A unit carrying the sunlight-to-holy conversion trait (counterexample
input for the damage claim). -/
def cexEnemySunlight : Enemy := { baseEnemy with traits := [Trait.holyFromSunlight] }

/-- An enemy under an active Mist effect. -/
def mistEnemy : Enemy :=
  { baseEnemy with effects := [(Effect.mist, { magnitude := 0, duration := 2 })] }

/-- An ally under an active Mist effect. -/
def mistAlly : Ally :=
  { baseAlly with effects := [(Effect.mist, { magnitude := 0, duration := 2 })] }

/-- An ally holding only an acquirable consumable (Wooden Stake) with one use
left. -/
def wAlly : Ally :=
  { baseAlly with
    abilities := [Ability.woodenStake],
    uses := [(Ability.woodenStake, 1)], selected_ability := 0 }

/-- The state of `wAlly` after the accounting of one Wooden Stake use. -/
def wAllyRes : Ally := { wAlly with abilities := [], uses := [] }

/-- An enemy holding a non-acquirable consumable (Hellfire) with two uses. -/
def wEnemy : Enemy :=
  { baseEnemy with abilities := [Ability.hellfire], uses := [(Ability.hellfire, 2)] }

/-- The state of `wEnemy` after the accounting of one Hellfire use. -/
def wEnemyRes : Enemy := { wEnemy with uses := [(Ability.hellfire, 1)] }

/-- An enemy holding a non-acquirable consumable (Hellfire) with one use left
(counterexample input for the consumable-removal claim). -/
def cexEnemyC5 : Enemy :=
  { baseEnemy with abilities := [Ability.hellfire], uses := [(Ability.hellfire, 1)] }

/-- An enemy at `(1,1)` with health 1 and a Burn of magnitude 1 about to
expire. -/
def c6Enemy : Enemy :=
  { baseEnemy with
    position := ⟨1, 1⟩, health := 1,
    effects := [(Effect.burn, { magnitude := 1, duration := 1 })] }

/-- The grid holding only `c6Enemy`. -/
def c6Grid : Grid := fun x y => if x = 1 ∧ y = 1 then Tile.enemy 0 else Tile.empty

/-- A level in which the burn tick kills `c6Enemy`. -/
def c6Level : LevelState :=
  { grid := c6Grid, turn := Turn.enemy 0 false, turn_order := [(0, 2)],
    spawn_queue := [], allies := [], enemies := [(0, c6Enemy)],
    obstacles := fun _ => ObstacleKind.wall, items := [] }

/-- An Attack candidate (counterexample input for the ranking claim). -/
def c3Attack : Candidate :=
  (some Ability.batBite, EnemyAction.attack AllyId.ashMagnum DamageKind.normal 1,
    1, [⟨2, 1⟩])

/-- A Spawn candidate (counterexample input for the ranking claim). -/
def c3Spawn : Candidate :=
  (some Ability.spawnBat, EnemyAction.spawn EnemyKind.bat ⟨3, 3⟩, 1, [⟨2, 2⟩])

/-- Ash Magnum at `(1,1)` (planner-determinism counterexample). -/
def c4AllyA : Ally := baseAlly

/-- Alukrod at `(3,3)` (planner-determinism counterexample). -/
def c4AllyB : Ally := { baseAlly with id := AllyId.alukrod, position := ⟨3, 3⟩ }

/-- The grid holding `baseEnemy` and the two allies of the
planner-determinism counterexample. -/
def c4Grid : Grid := fun x y =>
  if x = 2 ∧ y = 2 then Tile.enemy 0
  else if x = 1 ∧ y = 1 then Tile.ally AllyId.ashMagnum
  else if x = 3 ∧ y = 3 then Tile.ally AllyId.alukrod
  else Tile.empty

/-- A level whose ally map enumerates Ash Magnum first. -/
def c4Level1 : LevelState :=
  { grid := c4Grid, turn := Turn.enemy 0 false, turn_order := [(0, 2)],
    spawn_queue := [], allies := [(AllyId.ashMagnum, c4AllyA), (AllyId.alukrod, c4AllyB)],
    enemies := [(0, baseEnemy)], obstacles := fun _ => ObstacleKind.wall, items := [] }

/-- The same logical level with the ally map enumerated in the other order. -/
def c4Level2 : LevelState := { c4Level1 with
  allies := [(AllyId.alukrod, c4AllyB), (AllyId.ashMagnum, c4AllyA)] }

/-- An enemy vulnerable to silver (witness input for the damage claim). -/
def silverEnemy : Enemy := { baseEnemy with traits := [Trait.silverVulnerable] }

/-- The state of `silverEnemy` after `hit(2, Silver)`. -/
def c2WitnessRes : Enemy :=
  { silverEnemy with health := 2, animation := "front_hit" }

/-! Helper lemmas. -/

/-- Membership is preserved by folds that only append. -/
theorem mem_foldl_append {α β : Type} (a : α) :
    ∀ (l : List β) (acc : List α) (f : List α → β → List α),
      (∀ acc x, ∃ t, f acc x = acc ++ t) → a ∈ acc → a ∈ l.foldl f acc := by
  intro l
  induction l with
  | nil => intro acc f _ h; simpa using h
  | cons x xs ih =>
    intro acc f hf h
    simp only [List.foldl_cons]
    obtain ⟨t, ht⟩ := hf acc x
    exact ih _ f hf (by rw [ht]; exact List.mem_append_left _ h)

/-! Claim C9: the visible set always contains the origin. -/

/-- C9 (confirmed).  For every origin position, every view distance (including
0), and every level grid, the visible set returned by `compute_fov` contains
the origin position. -/
theorem c9_compute_fov_contains_origin (origin : Position) (distance : Nat)
    (level : LevelState) : origin ∈ compute_fov origin distance level := by
  unfold compute_fov
  exact mem_foldl_append origin Cardinal.all [origin] _
    (fun acc x => ⟨_, rfl⟩) (by simp)

/-! Claim C7: an active Mist effect suppresses hits entirely. -/

/-- C7 (confirmed).  While a unit's active-effects map contains the Mist
effect, `hit` leaves the unit's entire state unchanged — for any damage amount
and damage kind, health is not reduced and no Burn effect is added or
incremented.  This holds for allies and enemies alike. -/
theorem c7_mist_suppresses_hit (a : Ally) (e : Enemy) (da de : Nat)
    (ka ke : DamageKind) (sa se : EffectStats) :
    (mapGet a.effects Effect.mist = some sa → Ally.hit a da ka = some a) ∧
      (mapGet e.effects Effect.mist = some se → Enemy.hit e de ke = some e) := by
  constructor
  · intro h
    unfold Ally.hit
    rw [if_pos (by simp [h])]
  · intro h
    unfold Enemy.hit
    rw [if_pos (by simp [h])]

/-- Witness for C7 at a concrete misted ally and enemy. -/
theorem c7_mist_suppresses_hit_witness :
    Ally.hit mistAlly 3 DamageKind.silver = some mistAlly ∧
      Enemy.hit mistEnemy 1000 DamageKind.stake = some mistEnemy := by
  have h := c7_mist_suppresses_hit mistAlly mistEnemy 3 1000 DamageKind.silver
    DamageKind.stake { magnitude := 0, duration := 2 } { magnitude := 0, duration := 2 }
  exact ⟨h.1 (by decide), h.2 (by decide)⟩

/-! Claim C10: healing clamps at max health; hit never increases health. -/

/-- C10 (confirmed).  `heal` sets health to `min (health + amount) max_health`
(for allies and enemies), so healing a unit whose health is at most its max
health keeps it there; `hit` never increases health, so the bound is preserved
by hits as well — in particular by the life-steal self-heal, which is a plain
`heal` call on the attacker. -/
theorem c10_heal_clamps_health (a : Ally) (e : Enemy) (amount : Nat) :
    (Ally.heal a amount).health = min (a.health + amount) a.max_health ∧
      (Enemy.heal e amount).health = min (e.health + amount) e.max_health ∧
      (a.health ≤ a.max_health → (Ally.heal a amount).health ≤ a.max_health) ∧
      (e.health ≤ e.max_health → (Enemy.heal e amount).health ≤ e.max_health) ∧
      (∀ d k a', Ally.hit a d k = some a' →
        a'.health ≤ a.health ∧ a'.max_health = a.max_health) ∧
      (∀ d k e', Enemy.hit e d k = some e' →
        e'.health ≤ e.health ∧ e'.max_health = e.max_health) := by
  refine ⟨rfl, rfl, fun _ => Nat.min_le_right _ _, fun _ => Nat.min_le_right _ _, ?_, ?_⟩
  · intro d k a' h
    unfold Ally.hit at h
    split at h
    · injection h with h'
      subst h'
      exact ⟨Nat.le_refl _, rfl⟩
    · split at h <;> dsimp only at h <;> split at h <;>
        first
          | (injection h with h'; subst h'; exact ⟨Nat.sub_le _ _, rfl⟩)
          | simp at h
  · intro d k e' h
    unfold Enemy.hit at h
    split at h
    · injection h with h'
      subst h'
      exact ⟨Nat.le_refl _, rfl⟩
    · split at h <;> dsimp only at h <;> split at h <;>
        first
          | (injection h with h'; subst h'; exact ⟨Nat.sub_le _ _, rfl⟩)
          | simp at h

/-- Witness for C10 at a concrete ally and enemy. -/
theorem c10_heal_clamps_health_witness :
    (Ally.heal baseAlly 7).health = 5 ∧
      (Enemy.hit baseEnemy 2 DamageKind.normal).map Enemy.health = some 3 ∧
      ∀ e', Enemy.hit baseEnemy 2 DamageKind.normal = some e' → e'.health ≤ 5 := by
  have h := c10_heal_clamps_health baseAlly baseEnemy 7
  refine ⟨by decide, by decide, fun e' he => ?_⟩
  exact (h.2.2.2.2.2 2 DamageKind.normal e' he).1

/-! Claim C2: the damage formula of `hit`. -/

/-- Health after a non-suppressed `Enemy::hit` is the old health minus
`damage + damage_bonus`, with truncated (saturating) subtraction. -/
theorem enemy_hit_health (e : Enemy) (d : Nat) (k : DamageKind) (e' : Enemy)
    (hm : mapGet e.effects Effect.mist = none) (h : Enemy.hit e d k = some e') :
    e'.health = e.health - (d + damage_bonus k e.traits) := by
  unfold Enemy.hit at h
  rw [if_neg (by simp [hm])] at h
  split at h <;> dsimp only at h <;> split at h <;>
    first
      | (injection h with h'; subst h'; rfl)
      | simp at h

/-- Health after a non-suppressed `Ally::hit` is the old health minus
`damage + damage_bonus`, with truncated (saturating) subtraction. -/
theorem ally_hit_health (a : Ally) (d : Nat) (k : DamageKind) (a' : Ally)
    (hm : mapGet a.effects Effect.mist = none) (h : Ally.hit a d k = some a') :
    a'.health = a.health - (d + damage_bonus k a.traits) := by
  unfold Ally.hit at h
  rw [if_neg (by simp [hm])] at h
  split at h <;> dsimp only at h <;> split at h <;>
    first
      | (injection h with h'; subst h'; rfl)
      | simp at h

/-- C2 (corrected).  For every unit not under the Mist effect, `hit` reduces
health by `damage` plus the sum over the unit's traits of the flat trait bonus
for the damage kind — Silver vs SilverVulnerable +1, Holy vs HolyVulnerable
+2, Stake vs StakeVulnerable +1000, Sunlight vs SunlightVulnerable +1000, and
(missing from the claim) Sunlight vs HolyFromSunlight +2 — with the
subtraction saturating at 0.  `hit(2, Silver)` on a SilverVulnerable unit
reduces health by exactly 3 (saturating), and a hit whose total damage
`damage + bonus` is at least 1 takes a unit at health 1 to exactly 0 (a
0-damage Normal hit does not, which the claim as stated requires). -/
theorem c2_hit_damage_formula (e : Enemy) (a : Ally) (d : Nat) (k : DamageKind)
    (e' : Enemy) (a' : Ally) :
    (mapGet e.effects Effect.mist = none → Enemy.hit e d k = some e' →
        e'.health = e.health - (d + damage_bonus k e.traits)) ∧
      (mapGet a.effects Effect.mist = none → Ally.hit a d k = some a' →
        a'.health = a.health - (d + damage_bonus k a.traits)) ∧
      damage_bonus DamageKind.silver [Trait.silverVulnerable] = 1 ∧
      damage_bonus DamageKind.holy [Trait.holyVulnerable] = 2 ∧
      damage_bonus DamageKind.stake [Trait.stakeVulnerable] = 1000 ∧
      damage_bonus DamageKind.sunlight [Trait.sunlightVulnerable] = 1000 ∧
      damage_bonus DamageKind.sunlight [Trait.holyFromSunlight] = 2 ∧
      (mapGet e.effects Effect.mist = none → e.traits = [Trait.silverVulnerable] →
        Enemy.hit e 2 DamageKind.silver = some e' → e'.health = e.health - 3) ∧
      (mapGet e.effects Effect.mist = none → e.health = 1 →
        1 ≤ d + damage_bonus k e.traits → Enemy.hit e d k = some e' →
        e'.health = 0) := by
  refine ⟨fun hm h => enemy_hit_health e d k e' hm h,
    fun hm h => ally_hit_health a d k a' hm h,
    by decide, by decide, by decide, by decide, by decide, ?_, ?_⟩
  · intro hm ht h
    have hh := enemy_hit_health e 2 DamageKind.silver e' hm h
    rw [ht] at hh
    simpa [damage_bonus] using hh
  · intro hm h1 hd h
    have hh := enemy_hit_health e d k e' hm h
    rw [h1] at hh
    omega

/-- Counterexample to C2 as stated.  First conjunct: a hit of damage 0 (kind
Normal) on a traitless, unmisted unit at health 1 leaves health at 1, not 0,
refuting "any hit on a unit at health 1 leaves it at exactly 0".  Second
conjunct: a Sunlight hit of damage 1 on a unit whose only trait is
HolyFromSunlight reduces health by 3 (bonus +2), while the claim's bonus table
(which omits that trait) predicts a reduction of exactly 1. -/
theorem c2_counterexample :
    (Enemy.hit cexEnemyHealth1 0 DamageKind.normal).map Enemy.health = some 1 ∧
      (Enemy.hit cexEnemySunlight 1 DamageKind.sunlight).map Enemy.health =
        some 2 := by
  decide

/-- Witness for C2 at a concrete silver-vulnerable enemy. -/
theorem c2_hit_damage_formula_witness :
    mapGet silverEnemy.effects Effect.mist = none ∧
      Enemy.hit silverEnemy 2 DamageKind.silver = some c2WitnessRes ∧
      c2WitnessRes.health = silverEnemy.health - 3 := by
  refine ⟨by decide, by decide, ?_⟩
  exact (c2_hit_damage_formula silverEnemy baseAlly 2 DamageKind.silver
    c2WitnessRes baseAlly).2.2.2.2.2.2.2.1 (by decide) (by decide) (by decide)

/-! Claim C5: consumable-use accounting. -/

/-- Looking up the key just written by `mapInsert` yields the new value. -/
theorem mapGet_mapInsert_self {κ ν : Type} [DecidableEq κ]
    (m : List (κ × ν)) (k : κ) (v : ν) : mapGet (mapInsert m k v) k = some v := by
  induction m with
  | nil => simp [mapInsert, mapGet]
  | cons e t ih =>
    by_cases he : e.1 = k
    · simp [mapInsert, mapGet, List.find?_cons, he]
    · by_cases ht : (t.find? fun x => decide (x.1 = k)).isSome
      · have ih' : mapGet (t.map fun x => if x.1 = k then (k, v) else x) k = some v := by
          have hh := ih
          unfold mapInsert at hh
          rwa [if_pos ht] at hh
        unfold mapInsert mapGet
        rw [if_pos (by simp [List.find?_cons, he, ht])]
        simp only [List.map_cons, if_neg he]
        rw [List.find?_cons_of_neg _ (by simp [he])]
        exact ih'
      · have ih' : mapGet (t ++ [(k, v)]) k = some v := by
          have hh := ih
          unfold mapInsert at hh
          rwa [if_neg (by simpa using ht)] at hh
        unfold mapInsert mapGet
        rw [if_neg (by simp [List.find?_cons, he, ht])]
        simp only [List.cons_append]
        rw [List.find?_cons_of_neg _ (by simp [he])]
        exact ih'

/-- Looking up the key just removed by `mapErase` yields nothing. -/
theorem mapGet_mapErase_self {κ ν : Type} [DecidableEq κ]
    (m : List (κ × ν)) (k : κ) : mapGet (mapErase m k) k = none := by
  induction m with
  | nil => rfl
  | cons e t ih =>
    by_cases he : e.1 = k
    · unfold mapErase at ih ⊢
      rw [List.filter_cons_of_neg (by simp [he])]
      exact ih
    · unfold mapErase mapGet at ih ⊢
      rw [List.filter_cons_of_pos (by simp [he])]
      rw [List.find?_cons_of_neg _ (by simp [he])]
      exact ih

/-- C5 (corrected).  Using a consumable ability decrements its per-ability use
counter by one.  For an ally, reaching 0 uses removes the ability (at the
selected index) and its counter only if the ability is also acquirable;
otherwise the ability list is unchanged and the counter stays at its new
value.  For an enemy, reaching 0 uses removes the ability and its counter
unconditionally — the acquirable check the claim asserts is absent from
`Enemy::use_ability`. -/
theorem c5_consumable_accounting (a : Ally) (e : Enemy) (abA abE : Ability)
    (u v : Nat) (a' : Ally) (e' : Enemy) :
    ((abilities abA).consumable = true → mapGet a.uses abA = some (u + 1) →
        allyUsesAccounting a abA = some a' →
        (¬((abilities abA).acquirable = true ∧ u = 0) →
            a'.abilities = a.abilities ∧ mapGet a'.uses abA = some u) ∧
          ((abilities abA).acquirable = true → u = 0 →
            a'.abilities = a.abilities.eraseIdx a.selected_ability ∧
              mapGet a'.uses abA = none)) ∧
      ((abilities abE).consumable = true → mapGet e.uses abE = some (v + 1) →
        enemyUsesAccounting e abE = some e' →
        (v ≠ 0 → e'.abilities = e.abilities ∧ mapGet e'.uses abE = some v) ∧
          (v = 0 → mapGet e'.uses abE = none ∧
            ∀ i, e.abilities.findIdx? (fun x => decide (x = abE)) = some i →
              e'.abilities = e.abilities.eraseIdx i)) := by
  constructor
  · intro hc hu h
    unfold allyUsesAccounting at h
    rw [if_pos hc, hu] at h
    dsimp only at h
    rw [Nat.add_sub_cancel] at h
    constructor
    · intro hne
      rw [if_neg hne] at h
      injection h with h'
      subst h'
      exact ⟨rfl, mapGet_mapInsert_self _ _ _⟩
    · intro hacq hu0
      subst hu0
      rw [if_pos ⟨hacq, rfl⟩] at h
      injection h with h'
      subst h'
      exact ⟨rfl, mapGet_mapErase_self _ _⟩
  · intro hc hv h
    unfold enemyUsesAccounting at h
    rw [if_pos hc, hv] at h
    dsimp only at h
    rw [Nat.add_sub_cancel] at h
    constructor
    · intro hne
      rw [if_neg hne] at h
      injection h with h'
      subst h'
      exact ⟨rfl, mapGet_mapInsert_self _ _ _⟩
    · intro hv0
      subst hv0
      rw [if_pos rfl] at h
      rcases hf : e.abilities.findIdx? fun x => decide (x = abE) with _ | i
      · rw [hf] at h
        simp at h
      · rw [hf] at h
        injection h with h'
        subst h'
        refine ⟨mapGet_mapErase_self _ _, fun i' hi' => ?_⟩
        injection hi' with hi''
        subst hi''
        rfl

/-- Counterexample to C5 as stated.  Hellfire is consumable but not
acquirable; an enemy whose last Hellfire use is accounted removes the ability
from its list (and its counter) anyway, refuting "a consumable ability that is
not acquirable stays in the list with 0 uses ... for both ally and enemy
units". -/
theorem c5_counterexample :
    (abilities Ability.hellfire).consumable = true ∧
      (abilities Ability.hellfire).acquirable = false ∧
      (enemyUsesAccounting cexEnemyC5 Ability.hellfire).map Enemy.abilities =
        some [] ∧
      (enemyUsesAccounting cexEnemyC5 Ability.hellfire).map Enemy.uses =
        some [] := by
  decide

/-- Witness for C5: an ally expending the last use of the acquirable Wooden
Stake loses the ability; an enemy expending one of two Hellfire uses keeps the
ability with a decremented counter. -/
theorem c5_consumable_accounting_witness :
    allyUsesAccounting wAlly Ability.woodenStake = some wAllyRes ∧
      wAllyRes.abilities = [] ∧ mapGet wAllyRes.uses Ability.woodenStake = none ∧
      enemyUsesAccounting wEnemy Ability.hellfire = some wEnemyRes ∧
      wEnemyRes.abilities = [Ability.hellfire] ∧
      mapGet wEnemyRes.uses Ability.hellfire = some 1 := by
  have h := c5_consumable_accounting wAlly wEnemy Ability.woodenStake
    Ability.hellfire 0 1 wAllyRes wEnemyRes
  have h1 := (h.1 (by decide) (by decide) (by decide)).2 (by decide) rfl
  have h2 := (h.2 (by decide) (by decide) (by decide)).1 (by decide)
  refine ⟨by decide, ?_, h1.2, by decide, ?_, h2.2⟩
  · rw [h1.1]; decide
  · rw [h2.1]; decide

/-! Claim C8: the turn order is a stable descending-speed sort. -/

/-- Inserting an element all of whose `p`-peers it relates to keeps it in
front of them: the `p`-filter gains exactly the new element at the front. -/
theorem filter_orderedInsert_pos {α : Type} (r : α → α → Prop) [DecidableRel r]
    (p : α → Bool) (x : α) (hx : p x = true) (hr : ∀ y, p y = true → r x y) :
    ∀ l : List α, (List.orderedInsert r x l).filter p = x :: l.filter p := by
  intro l
  induction l with
  | nil => simp [List.orderedInsert, hx]
  | cons y t ih =>
    by_cases hry : r x y
    · simp [List.orderedInsert, hry, List.filter_cons, hx]
    · have hpy : p y = false := by
        cases hpy' : p y
        · rfl
        · exact absurd (hr y hpy') hry
      simp [List.orderedInsert, hry, List.filter_cons, hpy, ih]

/-- Inserting an element that fails `p` leaves the `p`-filter unchanged. -/
theorem filter_orderedInsert_neg {α : Type} (r : α → α → Prop) [DecidableRel r]
    (p : α → Bool) (x : α) (hx : p x = false) :
    ∀ l : List α, (List.orderedInsert r x l).filter p = l.filter p := by
  intro l
  induction l with
  | nil => simp [List.orderedInsert, hx]
  | cons y t ih =>
    by_cases hry : r x y
    · simp [List.orderedInsert, hry, List.filter_cons, hx]
    · simp [List.orderedInsert, hry, List.filter_cons, ih]

/-- Stability of the sort model: if all elements satisfying `p` are mutually
related (tied), sorting does not change the `p`-filter, i.e. tied elements
keep their original relative order. -/
theorem filter_insertionSort {α : Type} (r : α → α → Prop) [DecidableRel r]
    (p : α → Bool) (hequiv : ∀ a b, p a = true → p b = true → r a b) :
    ∀ l : List α, (List.insertionSort r l).filter p = l.filter p := by
  intro l
  induction l with
  | nil => rfl
  | cons x t ih =>
    cases hx : p x
    · simp [List.insertionSort, filter_orderedInsert_neg r p x hx,
        List.filter_cons, hx, ih]
    · have hstep := filter_orderedInsert_pos r p x hx
        (fun y hy => hequiv x y hx hy) (List.insertionSort r t)
      simp [List.insertionSort, hstep, List.filter_cons, hx, ih]

/-- The non-`Greater` relation of the turn-order comparator is descending
speed. -/
theorem speedCmp_le_iff (a b : EnemyId × Nat) :
    (speedCmp a b ≠ Ordering.gt) ↔ b.2 ≤ a.2 := by
  unfold speedCmp natCmp
  split_ifs with h1 h2 <;> simp [Ordering.swap] <;> omega

/-- C8 (confirmed).  The initial turn order is the enemies' `(id, speed)` list
sorted by descending speed, stably: the result is sorted, is a permutation of
the input, and every speed class keeps its original relative order (its filter
is unchanged).  The round boundary appends the queued spawns and re-sorts with
the same comparator, again stably.  For speeds `[5, 1, 5]` the order starts
with the two speed-5 units in their original relative order before the
speed-1 unit. -/
theorem c8_turn_order (l t sp : List (EnemyId × Nat)) :
    List.Sorted (fun a b : EnemyId × Nat => b.2 ≤ a.2) (initialTurnOrder l) ∧
      (initialTurnOrder l).Perm l ∧
      (∀ s, (initialTurnOrder l).filter (fun x => decide (x.2 = s)) =
        l.filter (fun x => decide (x.2 = s))) ∧
      List.Sorted (fun a b : EnemyId × Nat => b.2 ≤ a.2)
        (roundBoundaryTurnOrder t sp) ∧
      (roundBoundaryTurnOrder t sp).Perm (t ++ sp) ∧
      (∀ s, (roundBoundaryTurnOrder t sp).filter (fun x => decide (x.2 = s)) =
        (t ++ sp).filter (fun x => decide (x.2 = s))) ∧
      initialTurnOrder [(0, 5), (1, 1), (2, 5)] = [(0, 5), (2, 5), (1, 1)] := by
  have hiTot : IsTotal (EnemyId × Nat) (fun a b => speedCmp a b ≠ Ordering.gt) := by
    constructor
    intro a b
    rw [speedCmp_le_iff, speedCmp_le_iff]
    omega
  have hiTrans : IsTrans (EnemyId × Nat) (fun a b => speedCmp a b ≠ Ordering.gt) := by
    constructor
    intro a b c hab hbc
    rw [speedCmp_le_iff] at hab hbc ⊢
    omega
  have hsorted : ∀ m : List (EnemyId × Nat),
      List.Sorted (fun a b : EnemyId × Nat => b.2 ≤ a.2) (sortByCmp speedCmp m) := by
    intro m
    have hs := List.sorted_insertionSort (fun a b => speedCmp a b ≠ Ordering.gt) m
    exact hs.imp fun h => (speedCmp_le_iff _ _).mp h
  have hperm : ∀ m : List (EnemyId × Nat), (sortByCmp speedCmp m).Perm m :=
    fun m => List.perm_insertionSort _ m
  have hfilter : ∀ (m : List (EnemyId × Nat)) (s : Nat),
      (sortByCmp speedCmp m).filter (fun x => decide (x.2 = s)) =
        m.filter (fun x => decide (x.2 = s)) := by
    intro m s
    refine filter_insertionSort _ _ ?_ m
    intro a b ha hb
    rw [speedCmp_le_iff]
    have ha' := of_decide_eq_true ha
    have hb' := of_decide_eq_true hb
    omega
  exact ⟨hsorted l, hperm l, fun s => hfilter l s, hsorted _, hperm _,
    fun s => hfilter _ s, by decide⟩

/-! Claim C3: the planner's candidate ranking. -/

/-- Characterization of `Ordering.then` hitting `gt`. -/
theorem then_eq_gt (o p : Ordering) :
    o.then p = Ordering.gt ↔ o = Ordering.gt ∨ (o = Ordering.eq ∧ p = Ordering.gt) := by
  cases o <;> simp [Ordering.then]

/-- Distributivity of `swap` over `then`. -/
theorem then_swap (o p : Ordering) : (o.then p).swap = o.swap.then p.swap := by
  cases o <;> simp [Ordering.then, Ordering.swap]

/-- Swapping hits `gt` exactly when the original is `lt`. -/
theorem swap_eq_gt (o : Ordering) : o.swap = Ordering.gt ↔ o = Ordering.lt := by
  cases o <;> simp [Ordering.swap]

/-- Swapping preserves `eq`. -/
theorem swap_eq_eq (o : Ordering) : o.swap = Ordering.eq ↔ o = Ordering.eq := by
  cases o <;> simp [Ordering.swap]

/-- `natCmp` hits `lt` exactly on strictly smaller inputs. -/
theorem natCmp_eq_lt (a b : Nat) : natCmp a b = Ordering.lt ↔ a < b := by
  unfold natCmp
  split_ifs <;> simp <;> omega

/-- `natCmp` hits `eq` exactly on equal inputs. -/
theorem natCmp_eq_eq (a b : Nat) : natCmp a b = Ordering.eq ↔ a = b := by
  unfold natCmp
  split_ifs <;> simp <;> omega

/-- `natCmp` hits `gt` exactly on strictly larger inputs. -/
theorem natCmp_eq_gt (a b : Nat) : natCmp a b = Ordering.gt ↔ b < a := by
  unfold natCmp
  split_ifs <;> simp <;> omega

/-- `natCmp` swaps by exchanging the arguments. -/
theorem natCmp_swap (a b : Nat) : (natCmp a b).swap = natCmp b a := by
  unfold natCmp
  split_ifs <;> simp [Ordering.swap] <;> omega

/-- `boolCmp` hits `lt` exactly on `false < true`. -/
theorem boolCmp_eq_lt (a b : Bool) : boolCmp a b = Ordering.lt ↔ a = false ∧ b = true := by
  cases a <;> cases b <;> simp [boolCmp]

/-- `boolCmp` hits `eq` exactly on equal inputs. -/
theorem boolCmp_eq_eq (a b : Bool) : boolCmp a b = Ordering.eq ↔ a = b := by
  cases a <;> cases b <;> simp [boolCmp]

/-- `boolCmp` swaps by exchanging the arguments. -/
theorem boolCmp_swap (a b : Bool) : (boolCmp a b).swap = boolCmp b a := by
  cases a <;> cases b <;> rfl

/-- Arithmetic characterization of the four-component attack lexicographic
comparison reaching `gt`. -/
theorem lex4_eq_gt (aw bw : Bool) (ad bd ar br ac bc : Nat) :
    ((boolCmp aw bw).swap.then
        ((natCmp ad bd).swap.then ((natCmp ar br).swap.then (natCmp ac bc))) =
      Ordering.gt) ↔
      ((aw = false ∧ bw = true) ∨
        (aw = bw ∧ (ad < bd ∨ (ad = bd ∧ (ar < br ∨ (ar = br ∧ bc < ac)))))) := by
  simp [then_eq_gt, swap_eq_gt, swap_eq_eq, natCmp_eq_lt, natCmp_eq_eq,
    natCmp_eq_gt, boolCmp_eq_lt, boolCmp_eq_eq]

/-- The candidate comparator is antisymmetric under `swap`, as a lawful Rust
`Ord` implementation must be. -/
theorem candidateCmp_swap (traitsOf : AllyId → List Trait) (speed : Nat)
    (a b : Candidate) :
    candidateCmp traitsOf speed a b = (candidateCmp traitsOf speed b a).swap := by
  obtain ⟨oa, aact, ar, ap⟩ := a
  obtain ⟨ob, bact, br, bp⟩ := b
  cases aact <;> cases bact <;> simp only [candidateCmp] <;>
    first
      | rfl
      | simp [then_swap, Ordering.swap_swap, natCmp_swap, boolCmp_swap]

/-- The candidate comparator's non-`gt` relation is transitive. -/
theorem candidateCmp_trans (traitsOf : AllyId → List Trait) (speed : Nat)
    (a b c : Candidate) (hab : candidateCmp traitsOf speed a b ≠ Ordering.gt)
    (hbc : candidateCmp traitsOf speed b c ≠ Ordering.gt) :
    candidateCmp traitsOf speed a c ≠ Ordering.gt := by
  obtain ⟨oa, aact, ar, ap⟩ := a
  obtain ⟨ob, bact, br, bp⟩ := b
  obtain ⟨oc, cact, cr, cp⟩ := c
  cases aact <;> cases bact <;> cases cact <;>
    simp only [candidateCmp] at hab hbc ⊢ <;>
    first
      | exact absurd rfl hab
      | exact absurd rfl hbc
      | decide
      | skip
  rw [Ne, lex4_eq_gt] at hab hbc ⊢
  generalize decide (ap.length ≤ speed) = aw at hab hbc ⊢
  generalize decide (bp.length ≤ speed) = bw at hab hbc ⊢
  generalize decide (cp.length ≤ speed) = cw at hab hbc ⊢
  cases aw <;> cases bw <;> cases cw <;> simp_all <;> omega

/-- The head of the sort model is minimal with respect to the comparator,
for any comparator that is swap-antisymmetric with transitive non-`gt`
relation. -/
theorem head_min_sortByCmp {α : Type} (cmp : α → α → Ordering)
    (hswap : ∀ a b, cmp a b = (cmp b a).swap)
    (htrans : ∀ a b c, cmp a b ≠ Ordering.gt → cmp b c ≠ Ordering.gt →
      cmp a c ≠ Ordering.gt)
    (l : List α) (c : α) (rest : List α)
    (h : sortByCmp cmp l = c :: rest) :
    c ∈ l ∧ ∀ x ∈ l, cmp x c ≠ Ordering.lt := by
  haveI hTot : IsTotal α (fun a b => cmp a b ≠ Ordering.gt) := by
    constructor
    intro a b
    by_cases hg : cmp a b = Ordering.gt
    · right
      rw [hswap b a, hg]
      simp [Ordering.swap]
    · exact Or.inl hg
  haveI hTr : IsTrans α (fun a b => cmp a b ≠ Ordering.gt) := ⟨htrans⟩
  have hs := List.sorted_insertionSort (fun a b => cmp a b ≠ Ordering.gt) l
  have hperm := List.perm_insertionSort (fun a b => cmp a b ≠ Ordering.gt) l
  unfold sortByCmp at h
  rw [h] at hs hperm
  refine ⟨hperm.mem_iff.mp (List.mem_cons_self c rest), ?_⟩
  intro x hx
  rcases List.mem_cons.mp (hperm.mem_iff.mpr hx) with hxc | hxr
  · subst hxc
    intro hlt
    have hcc := hswap x x
    rw [hlt] at hcc
    simp [Ordering.swap] at hcc
  · have hcx : cmp c x ≠ Ordering.gt := (List.sorted_cons.mp hs).1 x hxr
    intro hlt
    refine hcx ?_
    rw [hswap c x, hlt]
    rfl

/-- C3 (corrected).  The candidate the planner selects (the head of the
stable sort) is maximal under the comparator actually used by the code: no
candidate in the list ranks strictly before it.  Under that comparator every
Spawn candidate ranks above (before) every Attack candidate, and Spawn
candidates are mutually equal; among Attack candidates the order is
reachable-this-turn first, then effective damage descending, then ability
range descending, then movement cost ascending. -/
theorem c3_candidate_ranking (traitsOf : AllyId → List Trait) (speed : Nat)
    (actions : List Candidate) (c : Candidate) (rest : List Candidate)
    (h : sortByCmp (candidateCmp traitsOf speed) actions = c :: rest) :
    c ∈ actions ∧
      (∀ x ∈ actions, candidateCmp traitsOf speed x c ≠ Ordering.lt) ∧
      (∀ x y : Candidate, (∃ k p, x.2.1 = EnemyAction.spawn k p) →
        (∃ i dk dm, y.2.1 = EnemyAction.attack i dk dm) →
        candidateCmp traitsOf speed x y = Ordering.lt) ∧
      (∀ x y : Candidate, (∃ k p, x.2.1 = EnemyAction.spawn k p) →
        (∃ k p, y.2.1 = EnemyAction.spawn k p) →
        candidateCmp traitsOf speed x y = Ordering.eq) := by
  have hm := head_min_sortByCmp (candidateCmp traitsOf speed)
    (candidateCmp_swap traitsOf speed) (candidateCmp_trans traitsOf speed)
    actions c rest h
  refine ⟨hm.1, hm.2, ?_, ?_⟩
  · rintro x y ⟨k, p, hx⟩ ⟨i, dk, dm, hy⟩
    unfold candidateCmp
    rw [hx, hy]
  · rintro x y ⟨k, p, hx⟩ ⟨k', p', hy⟩
    unfold candidateCmp
    rw [hx, hy]

/-- Counterexample to C3 as stated.  On a candidate list holding one Attack
and one Spawn candidate, the code's sort places the Spawn candidate first —
it is the one selected — and the comparator ranks the Attack candidate
strictly after the Spawn (`gt`), refuting "every Spawn candidate ranks below
every Attack candidate" and hence maximality under the claimed ranking. -/
theorem c3_counterexample :
    sortByCmp (candidateCmp (fun _ => []) 2) [c3Attack, c3Spawn] =
        [c3Spawn, c3Attack] ∧
      candidateCmp (fun _ => []) 2 c3Attack c3Spawn = Ordering.gt := by
  decide

/-- Witness for C3 at a concrete two-candidate list. -/
theorem c3_candidate_ranking_witness :
    c3Spawn ∈ [c3Attack, c3Spawn] ∧
      ∀ x ∈ [c3Attack, c3Spawn],
        candidateCmp (fun _ => []) 2 x c3Spawn ≠ Ordering.lt := by
  have h := c3_candidate_ranking (fun _ => []) 2 [c3Attack, c3Spawn] c3Spawn
    [c3Attack] (by decide)
  exact ⟨h.1, h.2.1⟩

/-! Claim C6: removal of dead entities. -/

/-- A fold of grid writes leaves untouched cells unchanged. -/
theorem foldl_set_not_mem :
    ∀ (cells : List (Nat × Nat)) (g : Grid) (x y : Nat), (x, y) ∉ cells →
      (cells.foldl (fun g c => Grid.set g c.1 c.2 Tile.empty) g) x y = g x y := by
  intro cells
  induction cells with
  | nil => intro g x y _; rfl
  | cons c t ih =>
    intro g x y h
    simp only [List.foldl_cons]
    rw [ih _ _ _ fun hm => h (List.mem_cons_of_mem _ hm)]
    unfold Grid.set
    rw [if_neg]
    rintro ⟨rfl, rfl⟩
    exact h (by simp)

/-- A fold of grid writes empties every written cell. -/
theorem foldl_set_mem :
    ∀ (cells : List (Nat × Nat)) (g : Grid) (x y : Nat), (x, y) ∈ cells →
      (cells.foldl (fun g c => Grid.set g c.1 c.2 Tile.empty) g) x y = Tile.empty := by
  intro cells
  induction cells with
  | nil => intro g x y h; simp at h
  | cons c t ih =>
    intro g x y h
    by_cases hm : (x, y) ∈ t
    · simp only [List.foldl_cons]
      exact ih _ _ _ hm
    · have hc : (x, y) = c := by
        rcases List.mem_cons.mp h with hc | hc
        · exact hc
        · exact absurd hc hm
      simp only [List.foldl_cons]
      rw [foldl_set_not_mem t _ _ _ hm]
      unfold Grid.set
      rw [if_pos ⟨congrArg Prod.fst hc, congrArg Prod.snd hc⟩]

/-- Every footprint cell is listed by `footprintCells`. -/
theorem mem_footprintCells (p : Position) (w h i j : Nat) (hi : i < w)
    (hj : j < h) : (p.x + i, p.y + j) ∈ footprintCells p w h := by
  unfold footprintCells
  rw [List.mem_flatMap]
  exact ⟨i, List.mem_range.mpr hi, List.mem_map.mpr ⟨j, List.mem_range.mpr hj, rfl⟩⟩

/-- Removing the (unique, by `Nodup`) turn-order entry of an id through
`findIdx?`/`eraseIdx` leaves no entry with that id. -/
theorem not_mem_turn_order_erase :
    ∀ (l : List (EnemyId × Nat)) (id : EnemyId), (l.map Prod.fst).Nodup →
      ∀ s, (id, s) ∉
        (match l.findIdx? fun x => decide (x.1 = id) with
          | some i => l.eraseIdx i
          | none => l) := by
  intro l
  induction l with
  | nil => intro id _ s h; simp [List.findIdx?] at h
  | cons e t ih =>
    intro id hnd s
    have hnd1 : e.1 ∉ t.map Prod.fst := ((List.nodup_cons).mp (by simpa using hnd)).1
    have hnd2 : (t.map Prod.fst).Nodup := ((List.nodup_cons).mp (by simpa using hnd)).2
    by_cases he : e.1 = id
    · rw [List.findIdx?_cons, if_pos (by simpa using he)]
      dsimp only
      rw [List.eraseIdx_cons_zero]
      intro hmem
      exact hnd1 (by rw [he]; exact List.mem_map.mpr ⟨(id, s), hmem, rfl⟩)
    · rw [List.findIdx?_cons, if_neg (by simpa using he), List.findIdx?_succ]
      rcases hf : t.findIdx? fun x => decide (x.1 = id) with _ | i
      · rw [hf]
        simp only [Option.map_none']
        intro hmem
        rcases List.mem_cons.mp hmem with hc | hc
        · exact he (congrArg Prod.fst hc.symm)
        · have := ih id hnd2 s
          rw [hf] at this
          exact this hc
      · rw [hf]
        simp only [Option.map_some']
        rw [List.eraseIdx_cons_succ]
        intro hmem
        rcases List.mem_cons.mp hmem with hc | hc
        · exact he (congrArg Prod.fst hc.symm)
        · have := ih id hnd2 s
          rw [hf] at this
          exact this hc

/-- C6 (corrected, amended part).  When a death animation finishes,
`Enemy::animation_end` clears every cell of the enemy's footprint from the
grid, removes the enemy from the enemies map, and removes its turn-order
entry (all ids being distinct), all in the same call. -/
theorem c6_death_cleanup (name : String) (e : Enemy) (level : LevelState)
    (h : name = "side_death" ∨ name = "back_death" ∨ name = "front_death") :
    (∀ i j, i < e.width → j < e.height →
        (Enemy.animation_end name e level).2.grid (e.position.x + i)
          (e.position.y + j) = Tile.empty) ∧
      mapGet (Enemy.animation_end name e level).2.enemies e.id = none ∧
      ((level.turn_order.map Prod.fst).Nodup →
        ∀ s, (e.id, s) ∉ (Enemy.animation_end name e level).2.turn_order) := by
  have hne : Enemy.animation_end name e level =
      (e, { level with
        grid := clearFootprint level.grid e.position e.width e.height,
        enemies := mapErase level.enemies e.id,
        turn_order :=
          match level.turn_order.findIdx? fun x => decide (x.1 = e.id) with
          | some i => level.turn_order.eraseIdx i
          | none => level.turn_order }) := by
    rcases h with h | h | h <;> subst h <;> rfl
  rw [hne]
  refine ⟨?_, mapGet_mapErase_self _ _, ?_⟩
  · intro i j hi hj
    unfold clearFootprint
    exact foldl_set_mem _ _ _ _ (mem_footprintCells e.position e.width e.height i j hi hj)
  · intro hnd s
    exact not_mem_turn_order_erase level.turn_order e.id hnd s

/-- Counterexample to C6 as stated.  The end-of-round burn tick (a resolution
step of `Level::process`) kills the enemy — its health becomes 0 — yet after
the step the turn order still holds the enemy's slot and the grid still tags
its cell; removal only happens later, in `Enemy::animation_end`, when the
death animation finishes. -/
theorem c6_counterexample :
    (LevelState.enemyEffectsTick c6Level).map
        (fun l => ((mapGet l.enemies 0).map Enemy.health, l.turn_order, l.grid 1 1)) =
      some (some 0, [(0, 2)], Tile.enemy 0) := by
  decide

/-- Witness for C6 (amended) at the concrete dead enemy of `c6Level`. -/
theorem c6_death_cleanup_witness :
    (Enemy.animation_end "front_death" c6Enemy c6Level).2.grid 1 1 = Tile.empty ∧
      mapGet (Enemy.animation_end "front_death" c6Enemy c6Level).2.enemies 0 = none ∧
      ∀ s, (0, s) ∉ (Enemy.animation_end "front_death" c6Enemy c6Level).2.turn_order := by
  have h := c6_death_cleanup "front_death" c6Enemy c6Level (Or.inr (Or.inr rfl))
  exact ⟨h.1 0 0 (by decide) (by decide), h.2.1, h.2.2 (by decide)⟩

/-! Claim C1: soundness of the pathfinder. -/

/-- Relaxing one neighbour preserves the `came_from` invariant. -/
theorem relax_preserves (grid : Grid) (goal : Position) (st : Tile) (w h : Nat)
    (position adjacent : Position) (s : SearchState)
    (hadj : adjacent ∈ position.adjacent)
    (hs : CameFromOk grid st w h s.came_from) :
    CameFromOk grid st w h
      (relaxNeighbor grid goal st w h position s adjacent).came_from := by
  unfold relaxNeighbor
  split
  case isTrue hfp =>
    dsimp only
    split
    · intro a op hget
      dsimp only at hget
      by_cases ha : a = adjacent
      · subst ha
        rw [if_pos rfl] at hget
        injection hget with hop
        exact ⟨position, hop.symm, hadj, hfp⟩
      · rw [if_neg ha] at hget
        exact hs a op hget
    · exact hs
  case isFalse hfp => exact hs

/-- Folding the neighbour relaxation over the popped position's adjacency list
preserves the `came_from` invariant. -/
theorem foldl_relax_preserves (grid : Grid) (goal : Position) (st : Tile)
    (w h : Nat) (position : Position) :
    ∀ (l : List Position) (s : SearchState), (∀ x ∈ l, x ∈ position.adjacent) →
      CameFromOk grid st w h s.came_from →
      CameFromOk grid st w h
        ((l.foldl (relaxNeighbor grid goal st w h position) s).came_from) := by
  intro l
  induction l with
  | nil => intro s _ hs; exact hs
  | cons x t ih =>
    intro s hl hs
    simp only [List.foldl_cons]
    exact ih _ (fun y hy => hl y (List.mem_cons_of_mem _ hy))
      (relax_preserves grid goal st w h position x s
        (hl x (List.mem_cons_self _ _)) hs)

/-- The whole search loop preserves the `came_from` invariant. -/
theorem searchLoop_preserves (grid : Grid) (goal : Position) (st : Tile)
    (w h : Nat) :
    ∀ (fuel : Nat) (s : SearchState), CameFromOk grid st w h s.came_from →
      CameFromOk grid st w h
        ((searchLoop grid goal st w h fuel s).came_from) := by
  intro fuel
  induction fuel with
  | zero => intro s hs; exact hs
  | succ n ih =>
    intro s hs
    rw [searchLoop]
    rcases hp : popMin s.frontier with _ | fr
    · exact hs
    · obtain ⟨f, rest⟩ := fr
      dsimp only
      split
      · exact hs
      · exact ih _ (foldl_relax_preserves grid goal st w h f.position
          f.position.adjacent { s with frontier := rest } (fun x hx => hx) hs)

/-- Soundness of the reconstruction loop: when it succeeds, the accumulated
list extends to a chain of adjacent, traversable, non-`start` positions that
starts (after reversal) at `start`. -/
theorem reconstructLoop_ok (grid : Grid) (st : Tile) (w h : Nat)
    (came_from : Position → Option (Option Position)) (start : Position)
    (hcf : CameFromOk grid st w h came_from) :
    ∀ (fuel : Nat) (position : Position) (acc res : List Position),
      List.Chain Adj position acc.reverse →
      (∀ x ∈ acc, Traversable grid st w h x ∧ x ≠ start) →
      reconstructLoop came_from start fuel position acc = some res →
      List.Chain Adj start res.reverse ∧
        (∀ x ∈ res, Traversable grid st w h x ∧ x ≠ start) ∧
        ∃ mid, res = acc ++ mid ∧ (mid = [] → position = start) ∧
          (mid ≠ [] → mid.head? = some position) := by
  intro fuel
  induction fuel with
  | zero => intro position acc res _ _ hrun; simp [reconstructLoop] at hrun
  | succ n ih =>
    intro position acc res hchain hmem hrun
    rw [reconstructLoop] at hrun
    by_cases hps : position = start
    · rw [if_pos hps] at hrun
      injection hrun with hres
      subst hres
      subst hps
      exact ⟨hchain, hmem, [], (List.append_nil acc).symm, fun _ => rfl,
        fun hne => absurd rfl hne⟩
    · rw [if_neg hps] at hrun
      rcases hcp : came_from position with _ | op
      · rw [hcp] at hrun
        simp at hrun
      · obtain ⟨prev, hop, hadj, htrav⟩ := hcf position op hcp
        subst hop
        rw [hcp] at hrun
        dsimp only at hrun
        have hchain' : List.Chain Adj prev (acc ++ [position]).reverse := by
          rw [List.reverse_append]
          exact List.Chain.cons hadj hchain
        have hmem' : ∀ x ∈ acc ++ [position],
            Traversable grid st w h x ∧ x ≠ start := by
          intro x hx
          rcases List.mem_append.mp hx with hx | hx
          · exact hmem x hx
          · have hxp : x = position := by simpa using hx
            subst hxp
            exact ⟨htrav, hps⟩
        obtain ⟨hc1, hc2, mid, hres, hm1, hm2⟩ :=
          ih prev (acc ++ [position]) res hchain' hmem' hrun
        refine ⟨hc1, hc2, position :: mid, ?_, ?_, fun _ => rfl⟩
        · rw [hres, List.append_assoc]
          rfl
        · intro hcontra
          exact absurd hcontra (List.cons_ne_nil _ _)

/-- A successful reconstruction from the goal yields a valid path after
reversal. -/
theorem reconstruct_gives_pathok (grid : Grid) (st : Tile) (w h : Nat)
    (cf : Position → Option (Option Position)) (start goal : Position)
    (hcf : CameFromOk grid st w h cf) (res : List Position)
    (hr : reconstructLoop cf start searchFuel goal [] = some res) :
    PathOk start goal grid st w h res.reverse := by
  obtain ⟨hc1, hc2, mid, hres, hm1, hm2⟩ :=
    reconstructLoop_ok grid st w h cf start hcf searchFuel goal [] res
      List.Chain.nil (by simp) hr
  simp only [List.nil_append] at hres
  refine ⟨hc1, ?_, ?_, ?_⟩
  · intro q hq
    exact hc2 q (List.mem_reverse.mp hq)
  · intro hnil
    have hres0 : res = [] := List.reverse_eq_nil_iff.mp hnil
    refine (hm1 ?_).symm
    rw [← hres, hres0]
  · intro hne
    rw [List.getLast?_reverse, hres]
    rcases hmid : mid with _ | ⟨m, mt⟩
    · rw [hres, hmid] at hne
      simp at hne
    · have hh := hm2 (by rw [hmid]; exact List.cons_ne_nil _ _)
      rw [hmid] at hh
      exact hh

/-- C1 (confirmed).  If `pathfind` returns `Some(path)`, the path is an
ordered sequence from `start` (exclusive: `start` never appears on it, and is
the predecessor of its first step) to `goal` (inclusive: the last position is
`goal`, and an empty path occurs only when `start = goal`), each position
4-adjacent to its predecessor, and every position on it traversable (its
whole footprint in bounds and each covered cell empty or the mover's own
tile).  Consequently `pathfind` returns `None` whenever the goal is
unreachable. -/
theorem c1_pathfind_sound (start goal : Position) (grid : Grid)
    (start_tile : Tile) (dims : Nat × Nat) :
    (∀ path, pathfind start goal grid start_tile dims = some path →
        PathOk start goal grid start_tile dims.1 dims.2 path) ∧
      (¬Reachable start goal grid start_tile dims.1 dims.2 →
        pathfind start goal grid start_tile dims = none) := by
  have hinit : CameFromOk grid start_tile dims.1 dims.2
      (initialSearchState start).came_from := by
    intro a op hop
    simp [initialSearchState] at hop
  have hcf := searchLoop_preserves grid goal start_tile dims.1 dims.2 searchFuel
    (initialSearchState start) hinit
  have hsound : ∀ path, pathfind start goal grid start_tile dims = some path →
      PathOk start goal grid start_tile dims.1 dims.2 path := by
    intro path hp
    unfold pathfind at hp
    dsimp only at hp
    rcases hr : reconstructLoop
        (searchLoop grid goal start_tile dims.1 dims.2 searchFuel
          (initialSearchState start)).came_from start searchFuel goal [] with _ | res
    · rw [hr] at hp
      simp at hp
    · rw [hr] at hp
      injection hp with hp'
      subst hp'
      exact reconstruct_gives_pathok grid start_tile dims.1 dims.2 _ start goal
        hcf res hr
  refine ⟨hsound, fun hnr => ?_⟩
  rcases hp : pathfind start goal grid start_tile dims with _ | p
  · rfl
  · exact absurd ⟨p, hsound p hp⟩ hnr

/-- Witness for C1: on the empty grid, `pathfind` from `(0,0)` to the
adjacent `(0,1)` returns the one-step path, and that path is valid. -/
theorem c1_pathfind_sound_witness :
    pathfind ⟨0, 0⟩ ⟨0, 1⟩ emptyGrid (Tile.ally AllyId.ashMagnum) (1, 1) =
        some [⟨0, 1⟩] ∧
      PathOk ⟨0, 0⟩ ⟨0, 1⟩ emptyGrid (Tile.ally AllyId.ashMagnum) 1 1 [⟨0, 1⟩] := by
  have hrun : pathfind ⟨0, 0⟩ ⟨0, 1⟩ emptyGrid (Tile.ally AllyId.ashMagnum) (1, 1) =
      some [⟨0, 1⟩] := by decide
  exact ⟨hrun,
    (c1_pathfind_sound ⟨0, 0⟩ ⟨0, 1⟩ emptyGrid (Tile.ally AllyId.ashMagnum)
      (1, 1)).1 [⟨0, 1⟩] hrun⟩

/-! Claim C4: planner determinism. -/

/-- Opacity only depends on the grid and the obstacle kinds. -/
theorem is_wall_congr (l₁ l₂ : LevelState) (hg : l₁.grid = l₂.grid)
    (ho : l₁.obstacles = l₂.obstacles) : ∀ p, is_wall p l₁ = is_wall p l₂ := by
  intro p
  unfold is_wall
  rw [hg, ho]

/-- The shadowcasting scan only depends on the grid and the obstacle kinds. -/
theorem scan_congr (l₁ l₂ : LevelState) (hg : l₁.grid = l₂.grid)
    (ho : l₁.obstacles = l₂.obstacles) :
    ∀ (d : Nat) (q : Quadrant) (r : Row), scan q r d l₁ = scan q r d l₂ := by
  intro d
  induction d with
  | zero => intro q r; rfl
  | succ n ih =>
    intro q r
    simp only [scan]
    simp only [is_wall_congr l₁ l₂ hg ho, ih]

/-- The visible set only depends on the grid and the obstacle kinds. -/
theorem compute_fov_congr (l₁ l₂ : LevelState) (hg : l₁.grid = l₂.grid)
    (ho : l₁.obstacles = l₂.obstacles) :
    ∀ o d, compute_fov o d l₁ = compute_fov o d l₂ := by
  intro o d
  unfold compute_fov
  simp only [scan_congr l₁ l₂ hg ho]

/-- C4 (corrected, amended part).  `plan` is a pure function of exactly the
level data it consults: the grid, the obstacle kinds, the ally association
list (including its enumeration order) and the item list.  Two calls on
states that agree on those components — whatever the turn state, turn order,
spawn queue or enemies map — return identical rankings and identical chosen
paths and actions; there is no other source of variation in the model. -/
theorem c4_plan_deterministic (e : Enemy) (l₁ l₂ : LevelState)
    (hg : l₁.grid = l₂.grid) (ho : l₁.obstacles = l₂.obstacles)
    (ha : l₁.allies = l₂.allies) (hi : l₁.items = l₂.items) :
    Enemy.plan e l₁ = Enemy.plan e l₂ := by
  have htr : allyTraitsOf l₁ = allyTraitsOf l₂ := by
    funext id
    unfold allyTraitsOf
    rw [ha]
  unfold Enemy.plan
  simp only [compute_fov_congr l₁ l₂ hg ho, hg, ha, hi, htr]

/-- Counterexample to C4 as stated.  `c4Level1` and `c4Level2` are identical
grid and unit states in every respect the claim lists — same grid, same
enemies, same turn order, same items, and ally maps equal as sets (a
permutation) — differing only in the enumeration order of the allies map,
which in the Rust source is the unspecified, randomly seeded `HashMap`
iteration order.  `plan` chooses an attack on Ash Magnum in the one and on
Alukrod in the other: the tie between the two equally-ranked best candidates
is broken by enumeration order, a hidden source of nondeterminism across
equal logical states. -/
theorem c4_counterexample :
    (Enemy.plan baseEnemy c4Level1).map (fun r => r.2.2) =
        some (some (Ability.batBite,
          EnemyAction.attack AllyId.ashMagnum DamageKind.normal 1)) ∧
      (Enemy.plan baseEnemy c4Level2).map (fun r => r.2.2) =
        some (some (Ability.batBite,
          EnemyAction.attack AllyId.alukrod DamageKind.normal 1)) ∧
      c4Level1.allies.Perm c4Level2.allies ∧
      c4Level1.grid = c4Level2.grid ∧
      c4Level1.enemies = c4Level2.enemies ∧
      c4Level1.items = c4Level2.items ∧
      c4Level1.turn_order = c4Level2.turn_order := by
  refine ⟨by decide, by decide, by decide, rfl, rfl, rfl, rfl⟩

/-- Witness for C4 (amended): fields the planner does not consult can change
freely without affecting the result. -/
theorem c4_plan_deterministic_witness :
    Enemy.plan baseEnemy c4Level1 =
      Enemy.plan baseEnemy
        { c4Level1 with
          spawn_queue := [7], turn := Turn.ally, turn_order := [],
          enemies := [] } :=
  c4_plan_deterministic baseEnemy _ _ rfl rfl rfl rfl

end Game
